import Mathlib

/-!
# CubeSurface.cpp (nvtt): solid-angle table, direction table, cosine-power filter,
# cube loading and copy-on-write handles

A shallow embedding of `src/nvtt/CubeSurface.cpp`.

Conventions of the embedding.

* `float` is modelled by `ℝ` (exact real arithmetic); `atan2`, `sqrtf`, `powf` are the
  mathematical functions.
* `uint` loop counters and table indices are modelled by `Nat`.  An image of edge length
  `N` is addressed with `uint` indices, so `6 * N * N` stays below `2 ^ 32` for every cube
  that exists in memory and no index expression of the file wraps.  The one place where
  signed/unsigned conversion matters (`load`, the mip index) is modelled with explicit
  wrap-around.
* `nv::Array<T>` is a `List T`; reading `data[i]` outside the array is a fault and is
  modelled by `none`.
* `for (uint i = 0; i < n; i++) body` is `forLoop n body`, a left fold over `0, …, n-1`.
-/

namespace nvtt

/-! ## Loops and arrays -/

/-- The loop `for (uint i = 0; i < n; i++) s = body i s`. -/
def forLoop {σ : Type} (n : Nat) (body : Nat → σ → σ) (s : σ) : σ :=
  (List.range n).foldl (fun s i => body i s) s

/-! ## Solid angle of a texel (lines 194-227) -/

/-- The C library function `atan2(y, x)` on real numbers. -/
noncomputable def atan2 (y x : ℝ) : ℝ :=
  if 0 < x then Real.arctan (y / x)
  else if x < 0 then
    (if 0 ≤ y then Real.arctan (y / x) + Real.pi else Real.arctan (y / x) - Real.pi)
  else if 0 < y then Real.pi / 2
  else if y < 0 then -(Real.pi / 2)
  else 0

/-- Solid angle of an axis aligned quad from (0,0,1) to (x,y,1):
`atan2(x*y, sqrtf(x*x + y*y + 1))`. -/
noncomputable def areaElement (x y : ℝ) : ℝ :=
  atan2 (x * y) (Real.sqrt (x * x + y * y + 1))

/-- The texel-centre coordinate `(float(x) + 0.5f) * (2 * inverseEdgeLength) - 1.0f`. -/
noncomputable def texelCenter (x : Nat) (inverseEdgeLength : ℝ) : ℝ :=
  ((x : ℝ) + 1 / 2) * (2 * inverseEdgeLength) - 1

/-- Solid angle of a hemicube texel (the `#if 1` branch of `solidAngleTerm`). -/
noncomputable def solidAngleTerm (x y : Nat) (inverseEdgeLength : ℝ) : ℝ :=
  let u := texelCenter x inverseEdgeLength
  let v := texelCenter y inverseEdgeLength
  let x0 := u - inverseEdgeLength
  let y0 := v - inverseEdgeLength
  let x1 := u + inverseEdgeLength
  let y1 := v + inverseEdgeLength
  areaElement x0 y0 - areaElement x0 y1 - areaElement x1 y0 + areaElement x1 y1

/-- The debug checks `nvDebugCheck(u >= -1.0f && u <= 1.0f)` (and the same for `v`) of
`solidAngleTerm`. -/
def solidAngleTermRangeCheck (u : ℝ) : Prop := -1 ≤ u ∧ u ≤ 1

/-! ## SolidAngleTable (lines 230-258) -/

/-- The struct `SolidAngleTable`: the quadrant size and the table of solid angles. -/
structure SolidAngleTable where
  /-- Field `uint size`. -/
  size : Nat
  /-- Field `nv::Array<float> data`. -/
  data : List ℝ

/-- The constructor `SolidAngleTable(uint edgeLength)`: `size = edgeLength / 2`, the table is
resized to `size * size` entries and entry `y * size + x` is set to
`solidAngleTerm(128+x, 128+y, 1.0f / edgeLength)`. -/
noncomputable def SolidAngleTable.init (edgeLength : Nat) : SolidAngleTable :=
  let size := edgeLength / 2
  let data0 : List ℝ := List.replicate (size * size) 0
  let inverseEdgeLength : ℝ := 1 / (edgeLength : ℝ)
  { size := size
    data := forLoop size (fun y d =>
      forLoop size (fun x d =>
        d.set (y * size + x) (solidAngleTerm (128 + x) (128 + y) inverseEdgeLength)) d) data0 }

/-- The coordinate folding of `SolidAngleTable::lookup`:
`if (x >= size) x -= size; else if (x < size) x = size - x - 1;`. -/
def SolidAngleTable.foldCoord (size x : Nat) : Nat :=
  if x ≥ size then x - size
  else if x < size then size - x - 1
  else x

/-- The index `y * size + x` read by `SolidAngleTable::lookup` after folding. -/
def SolidAngleTable.lookupIndex (t : SolidAngleTable) (x y : Nat) : Nat :=
  SolidAngleTable.foldCoord t.size y * t.size + SolidAngleTable.foldCoord t.size x

/-- The method `SolidAngleTable::lookup`; `none` when the index read lies outside `data`. -/
def SolidAngleTable.lookup (t : SolidAngleTable) (x y : Nat) : Option ℝ :=
  t.data[t.lookupIndex x y]?

/-- The sum of `lookup(x, y)` over the texels `x, y` in `[0, N)` of one face (a read outside
the table counts as zero). -/
noncomputable def SolidAngleTable.faceSum (t : SolidAngleTable) (N : Nat) : ℝ :=
  ∑ x in Finset.range N, ∑ y in Finset.range N, (t.lookup x y).getD 0

/-! ## Directions of texels (lines 261-306) -/

/-- The type `nv::Vector3` with real components. -/
structure Vector3 where
  /-- Component `x`. -/
  x : ℝ
  /-- Component `y`. -/
  y : ℝ
  /-- Component `z`. -/
  z : ℝ

/-- Modelled from the spec: `dot(a, b)` of `nvmath/Vector.h` (not under `src/`), the scalar
product of two vectors. -/
noncomputable def dot (a b : Vector3) : ℝ := a.x * b.x + a.y * b.y + a.z * b.z

/-- Modelled from the spec: `normalizeFast(n)` of `nvmath/Vector.h` (not under `src/`); the
spec gives `normalize(n)`, taken here with exact normalisation: `n` scaled by
`1 / sqrt(dot(n, n))`. -/
noncomputable def normalizeFast (v : Vector3) : Vector3 :=
  let s := 1 / Real.sqrt (dot v v)
  ⟨v.x * s, v.y * s, v.z * s⟩

/-- The vector `n` that `texelDirection` builds before normalising it: the sequence of
`if (face == k) { n.x = …; n.y = …; n.z = …; }` statements.  `n` is declared without an
initial value in the source; the model starts it at zero, which only shows for `face ≥ 6`. -/
noncomputable def texelDirectionRaw (face x y : Nat) (ilen : ℝ) : Vector3 :=
  let u := texelCenter x ilen
  let v := texelCenter y ilen
  let n : Vector3 := ⟨0, 0, 0⟩
  let n : Vector3 := if face = 0 then ⟨1, -v, -u⟩ else n
  let n : Vector3 := if face = 1 then ⟨-1, -v, u⟩ else n
  let n : Vector3 := if face = 2 then ⟨u, 1, v⟩ else n
  let n : Vector3 := if face = 3 then ⟨u, -1, -v⟩ else n
  let n : Vector3 := if face = 4 then ⟨u, -v, 1⟩ else n
  let n : Vector3 := if face = 5 then ⟨-u, -v, -1⟩ else n
  n

/-- The function `texelDirection(face, x, y, ilen)`: `normalizeFast(n)`. -/
noncomputable def texelDirection (face x y : Nat) (ilen : ℝ) : Vector3 :=
  normalizeFast (texelDirectionRaw face x y ilen)

/-! ## VectorTable (lines 308-330) -/

/-- The struct `VectorTable`. -/
structure VectorTable where
  /-- Field `uint size`. -/
  size : Nat
  /-- Field `nv::Array<Vector3> data`. -/
  data : List Vector3

/-- The constructor `VectorTable(uint edgeLength)`: the table is resized to `size*size*6`
entries and entry `(f * size + y) * size + x` is set to
`texelDirection(f, x, y, 1.0f / edgeLength)`. -/
noncomputable def VectorTable.init (edgeLength : Nat) : VectorTable :=
  let size := edgeLength
  let invEdgeLength : ℝ := 1 / (edgeLength : ℝ)
  let data0 : List Vector3 := List.replicate (size * size * 6) ⟨0, 0, 0⟩
  { size := size
    data := forLoop 6 (fun f d =>
      forLoop size (fun y d =>
        forLoop size (fun x d =>
          d.set ((f * size + y) * size + x) (texelDirection f x y invEdgeLength)) d) d) data0 }

/-- The index `(f * size + y) * size + x` read by `VectorTable::lookup`. -/
def VectorTable.lookupIndex (t : VectorTable) (f x y : Nat) : Nat :=
  (f * t.size + y) * t.size + x

/-- The method `VectorTable::lookup`; `none` when the index read lies outside `data`. -/
def VectorTable.lookup (t : VectorTable) (f x y : Nat) : Option Vector3 :=
  t.data[t.lookupIndex f x y]?

/-! ## cosinePowerFilter, gather branch (lines 333-345 and 408-470) -/

/-- What can go wrong in one output texel of the filter: a table read outside its array, or
the division `1.0f / sum` with `sum == 0`, whose result is not a real number. -/
inductive Fault where
  | outOfBounds : Fault
  | divisionByZero : Fault
  deriving DecidableEq

/-- The pixel data of one face, `image->pixel(c, x, y, 0)` (external image buffer). -/
structure FloatImage where
  /-- Channel `c` of the pixel at `(x, y)`. -/
  pixel : Nat → Nat → Nat → ℝ

/-- The source cube as the filter reads it: `m->edgeLength` and `m->face[ff].m->image`. -/
structure SourceCube where
  /-- Field `edgeLength`. -/
  edgeLength : Nat
  /-- The images of the faces. -/
  face : Nat → FloatImage

/-- Modelled from the spec: `saturate(f)` of `nvmath` (not under `src/`), clamping to
`[0, 1]`. -/
noncomputable def saturate (f : ℝ) : ℝ := min (max f 0) 1

/-- The constant `threshold = 0.0001f`. -/
noncomputable def threshold : ℝ := 1 / 10000

/-- The accumulators `color` and `sum` of the gather loop. -/
structure GatherState where
  /-- The accumulator `Vector3 color`. -/
  color : Vector3
  /-- The accumulator `float sum`. -/
  sum : ℝ

/-- The value `scale = powf(saturate(dot(inputDir, filterDir)), cosinePower)`. -/
noncomputable def lobeScale (inputDir filterDir : Vector3) (cosinePower : ℝ) : ℝ :=
  (saturate (dot inputDir filterDir)) ^ cosinePower

/-- The body of the innermost loop (lines 435-453) for the input texel `(ff, xx, yy)`. -/
noncomputable def gatherTexel (cube : SourceCube) (solidAngleTable : SolidAngleTable)
    (vectorTable : VectorTable) (filterDir : Vector3) (cosinePower : ℝ) (ff xx yy : Nat)
    (s : Except Fault GatherState) : Except Fault GatherState :=
  match s with
  | .error e => .error e
  | .ok s =>
    match vectorTable.lookup ff xx yy with
    | none => .error Fault.outOfBounds
    | some inputDir =>
      let scale := lobeScale inputDir filterDir cosinePower
      if scale > threshold then
        match solidAngleTable.lookup xx yy with
        | none => .error Fault.outOfBounds
        | some solidAngle =>
          let contribution := solidAngle * scale
          let r := (cube.face ff).pixel 0 xx yy
          let g := (cube.face ff).pixel 1 xx yy
          let b := (cube.face ff).pixel 2 xx yy
          .ok { sum := s.sum + contribution
                color := ⟨s.color.x + r * contribution, s.color.y + g * contribution,
                          s.color.z + b * contribution⟩ }
      else .ok s

/-- The three loops over the input cube (lines 424-456) for one output texel: the
accumulated `color` and `sum` before normalisation. -/
noncomputable def gather (cube : SourceCube) (solidAngleTable : SolidAngleTable)
    (vectorTable : VectorTable) (filterDir : Vector3) (cosinePower : ℝ) :
    Except Fault GatherState :=
  forLoop 6 (fun ff s =>
    forLoop cube.edgeLength (fun yy s =>
      forLoop cube.edgeLength (fun xx s =>
        gatherTexel cube solidAngleTable vectorTable filterDir cosinePower ff xx yy s) s) s)
    (.ok { color := ⟨0, 0, 0⟩, sum := 0 })

/-- The statement `color *= (1.0f / sum)` (line 458).  The source evaluates the quotient
whatever `sum` is; with `sum == 0` it has no real value. -/
noncomputable def normalizeColor (s : GatherState) : Except Fault Vector3 :=
  if s.sum = 0 then .error Fault.divisionByZero
  else
    let k := 1 / s.sum
    .ok ⟨s.color.x * k, s.color.y * k, s.color.z * k⟩

/-- The cube returned by `cosinePowerFilter`: its edge length and, for each texel
`(f, x, y)`, the RGB value held in channels 0, 1, 2 (a `Fault` where the value the source
computes is not a real number). -/
structure FilteredCube where
  /-- Edge length given to `allocate`. -/
  edgeLength : Nat
  /-- The RGB value at face `f`, texel `(x, y)`. -/
  pixel : Nat → Nat → Nat → Except Fault Vector3

/-- The stores `filteredImage->pixel(c, x, y, 0) = color.c` for `c = 0, 1, 2` (lines 460-462)
into face `f`. -/
def FilteredCube.setPixel (c : FilteredCube) (f x y : Nat) (color : Except Fault Vector3) :
    FilteredCube :=
  { c with pixel := fun f' x' y' => if f' = f ∧ x' = x ∧ y' = y then color else c.pixel f' x' y' }

/-- The value the filter computes for output texel `(f, x, y)` (lines 422-458), given the two
tables: the filter direction, the gather loops and the normalisation. -/
noncomputable def filterTexel (cube : SourceCube) (solidAngleTable : SolidAngleTable)
    (vectorTable : VectorTable) (size : Nat) (cosinePower : ℝ) (f x y : Nat) :
    Except Fault Vector3 :=
  let filterDir := texelDirection f x y (1 / (size : ℝ))
  match gather cube solidAngleTable vectorTable filterDir cosinePower with
  | .error e => .error e
  | .ok s => normalizeColor s

/-- The method `CubeSurface::cosinePowerFilter(size, cosinePower)`, gather branch.  The
output cube is allocated with edge length `size` and zero pixels, both tables are built from
the source edge length, and the loops over `f`, `y`, `x` store the value computed for each
output texel. -/
noncomputable def cosinePowerFilter (cube : SourceCube) (size : Nat) (cosinePower : ℝ) :
    FilteredCube :=
  let edgeLength := cube.edgeLength
  let filteredCube : FilteredCube := { edgeLength := size, pixel := fun _ _ _ => .ok ⟨0, 0, 0⟩ }
  let solidAngleTable := SolidAngleTable.init edgeLength
  let vectorTable := VectorTable.init edgeLength
  forLoop 6 (fun f c =>
    forLoop size (fun y c =>
      forLoop size (fun x c =>
        c.setPixel f x y
          (filterTexel cube solidAngleTable vectorTable size cosinePower f x y)) c) c)
    filteredCube

/-! ## Reference-counted representation and handles (lines 41-102) -/

/-- The struct `CubeSurface::Private`, with the count of its `RefCounted` base.  `S` is the
external type `nvtt::Surface`, taken as a value. -/
structure Private (S : Type) where
  /-- The count of `RefCounted`. -/
  refCount : Nat
  /-- Field `edgeLength`. -/
  edgeLength : Nat
  /-- Field `Surface face[6]`. -/
  face : Nat → S

/-- The free store: the representations that exist, by address, and the next fresh address. -/
structure Heap (S : Type) where
  /-- The object at an address, if one is allocated there. -/
  cell : Nat → Option (Private S)
  /-- The address the next `new` returns. -/
  next : Nat

/-- A handle `CubeSurface`: the pointer `m`.  Handles are live: `m` is `NULL` only after the
destructor has run, so the tests `m != NULL` are true. -/
structure CubeSurface where
  /-- The pointer `Private * m`. -/
  m : Nat
  deriving DecidableEq

/-- Applies `g` to the object at address `a`. -/
def Heap.modify {S : Type} (h : Heap S) (a : Nat) (g : Private S → Private S) : Heap S :=
  { h with cell := fun b => if b = a then (h.cell a).map g else h.cell b }

/-- The expression `new CubeSurface::Private(p)`: the object is stored at a fresh address. -/
def Heap.alloc {S : Type} (h : Heap S) (p : Private S) : Nat × Heap S :=
  (h.next, { cell := fun b => if b = h.next then some p else h.cell b, next := h.next + 1 })

/-- Modelled from the spec: `RefCounted::addRef` of `nvcore` (not under `src/`), which
increments the shared reference count. -/
def Heap.addRef {S : Type} (h : Heap S) (a : Nat) : Heap S :=
  h.modify a (fun p => { p with refCount := p.refCount + 1 })

/-- Modelled from the spec: `RefCounted::release` of `nvcore` (not under `src/`), which
decrements the count; the representation is destroyed when the last owning handle releases
it. -/
def Heap.release {S : Type} (h : Heap S) (a : Nat) : Heap S :=
  match h.cell a with
  | none => h
  | some p =>
    if p.refCount - 1 = 0 then { h with cell := fun b => if b = a then none else h.cell b }
    else h.modify a (fun p => { p with refCount := p.refCount - 1 })

/-- The call `m->refCount()`; `0` for an address with no object. -/
def Heap.refCount {S : Type} (h : Heap S) (a : Nat) : Nat :=
  match h.cell a with
  | none => 0
  | some p => p.refCount

/-- Modelled from the spec: the default constructor `Private()` of `CubeSurface.h` (not under
`src/`): a cube is created empty, `edgeLength = 0`, with default-constructed faces. -/
def Private.empty {S : Type} (dflt : S) : Private S :=
  { refCount := 0, edgeLength := 0, face := fun _ => dflt }

/-- Modelled from the spec: the copy constructor `Private(const Private &)` of
`CubeSurface.h` (not under `src/`): it clones the representation (edge length and faces);
the clone starts with count zero. -/
def Private.clone {S : Type} (p : Private S) : Private S :=
  { refCount := 0, edgeLength := p.edgeLength, face := p.face }

/-- The constructor `CubeSurface()`: `m(new Private())`, then `m->addRef()`. -/
def CubeSurface.new {S : Type} (dflt : S) (h : Heap S) : CubeSurface × Heap S :=
  let r := h.alloc (Private.empty dflt)
  ({ m := r.1 }, r.2.addRef r.1)

/-- The copy constructor `CubeSurface(const CubeSurface & cube)`: `m(cube.m)`, then
`m->addRef()`. -/
def CubeSurface.copy {S : Type} (h : Heap S) (cube : CubeSurface) : CubeSurface × Heap S :=
  ({ m := cube.m }, h.addRef cube.m)

/-- The destructor: `m->release()`. -/
def CubeSurface.destroy {S : Type} (h : Heap S) (self : CubeSurface) : Heap S :=
  h.release self.m

/-- The assignment `operator=`: `cube.m->addRef(); m->release(); m = cube.m;`. -/
def CubeSurface.assign {S : Type} (h : Heap S) (self cube : CubeSurface) :
    CubeSurface × Heap S :=
  let h := h.addRef cube.m
  let h := h.release self.m
  ({ m := cube.m }, h)

/-- The method `detach`: when the count exceeds 1, release the shared representation, clone
it and take a reference on the clone. -/
def CubeSurface.detach {S : Type} (h : Heap S) (self : CubeSurface) : CubeSurface × Heap S :=
  if h.refCount self.m > 1 then
    let h := h.release self.m
    match h.cell self.m with
    | none => (self, h)
    | some p =>
      let r := h.alloc p.clone
      ({ m := r.1 }, r.2.addRef r.1)
  else (self, h)

/-- The method `edgeLength()`: `m->edgeLength`; `0` for a dangling handle. -/
def CubeSurface.edgeLength {S : Type} (h : Heap S) (self : CubeSurface) : Nat :=
  match h.cell self.m with
  | none => 0
  | some p => p.edgeLength

/-- The method `isNull()`: `m->edgeLength == 0`. -/
def CubeSurface.isNull {S : Type} (h : Heap S) (self : CubeSurface) : Bool :=
  CubeSurface.edgeLength h self == 0

/-- The accessor `face(f) const`: `m->face[f]`. -/
def CubeSurface.face {S : Type} (h : Heap S) (self : CubeSurface) (f : Nat) : Option S :=
  (h.cell self.m).map (fun p => p.face f)

/-- The store `p.face[f] = s`. -/
def Private.setFace {S : Type} (p : Private S) (f : Nat) (s : S) : Private S :=
  { p with face := fun g => if g = f then s else p.face g }

/-- An assignment `cube.face(f) = s` through the reference that the non-const accessor
`face(f)` returns: the accessor hands out `m->face[f]` itself. -/
def CubeSurface.setFace {S : Type} (h : Heap S) (self : CubeSurface) (f : Nat) (s : S) :
    Heap S :=
  h.modify self.m (fun p => p.setFace f s)

/-! ## The external capabilities used by `load`, `toLinear`, `toGamma` -/

/-- The input formats `load` selects among. -/
inductive InputFormat where
  | BGRA_8UB : InputFormat
  | RGBA_16F : InputFormat
  | RGBA_32F : InputFormat
  deriving DecidableEq

/-- The methods of the external `nvtt::Surface` that this file calls; `D` is the type of a
raw texel buffer. -/
structure SurfaceOps (S D : Type) where
  /-- The call `setImage(format, w, h, d, data)`. -/
  setImage : InputFormat → Nat → Nat → Nat → D → S → S
  /-- The call `toLinear(gamma)`. -/
  toLinear : ℝ → S → S
  /-- The call `toGamma(gamma)`. -/
  toGamma : ℝ → S → S

/-- What `load` asks of the external `nv::DirectDrawSurface` opened on the file. -/
structure DirectDrawSurface (D : Type) where
  /-- The call `isValid()`. -/
  isValid : Bool
  /-- The call `isTextureCube()`. -/
  isTextureCube : Bool
  /-- The field `header.width`. -/
  width : Nat
  /-- The field `header.height`. -/
  height : Nat
  /-- The call `mipmapCount()`, a `uint`. -/
  mipmapCount : Nat
  /-- The call `header.hasDX10Header()`. -/
  hasDX10Header : Bool
  /-- The field `header.header10.dxgiFormat`. -/
  dxgiFormat : Nat
  /-- The field `header.pf.flags`. -/
  pfFlags : Nat
  /-- The field `header.pf.fourcc`. -/
  pfFourcc : Nat
  /-- The field `header.pf.bitcount`. -/
  pfBitcount : Nat
  /-- The call `surfaceWidth(mipmap)`. -/
  surfaceWidth : Nat → Nat
  /-- The buffer that `readSurface(f, mipmap, data, size)` fills. -/
  readSurface : Nat → Nat → D

/-- Modelled from the spec: the constant `DXGI_FORMAT_R16G16B16A16_FLOAT` (declared outside
`src/`), the tag of 16-bit float RGBA in a DX10 header; value of the DirectX headers. -/
def DXGI_FORMAT_R16G16B16A16_FLOAT : Nat := 10
/-- Modelled from the spec: the constant `DXGI_FORMAT_R32G32B32A32_FLOAT` (declared outside
`src/`), the tag of 32-bit float RGBA in a DX10 header; value of the DirectX headers. -/
def DXGI_FORMAT_R32G32B32A32_FLOAT : Nat := 2
/-- Modelled from the spec: the constant `D3DFMT_A16B16G16R16F` (declared outside `src/`),
the FOURCC tag of 16-bit float RGBA; value of the DirectX headers. -/
def D3DFMT_A16B16G16R16F : Nat := 113
/-- Modelled from the spec: the constant `D3DFMT_A32B32G32R32F` (declared outside `src/`),
the FOURCC tag of 32-bit float RGBA; value of the DirectX headers. -/
def D3DFMT_A32B32G32R32F : Nat := 116
/-- Modelled from the spec: the flag `DDPF_FOURCC` (declared outside `src/`) of the pixel
format flags; value of the DirectX headers. -/
def DDPF_FOURCC : Nat := 4

/-! ## load (lines 105-165) -/

/-- Modelled from the spec: `toI32` of `nvcore` (not under `src/`), the conversion of a value
to `int`: 32 bits, two's complement. -/
def toI32 (z : Int) : Int := (z + 2 ^ 31) % 2 ^ 32 - 2 ^ 31

/-- Lines 122-124: `if (mipmap < 0) mipmap = dds.mipmapCount() - 1 - mipmap;`.  The right
side is computed in `uint` and converted back to `int`. -/
def resolveMipmap (mipmapCount : Nat) (mipmap : Int) : Int :=
  if mipmap < 0 then toI32 ((mipmapCount : Int) - 1 - mipmap) else mipmap

/-- Line 125: the test `mipmap < 0 || mipmap > toI32(dds.mipmapCount())` under which `load`
returns false. -/
def mipmapRejected (mipmapCount : Nat) (mipmap : Int) : Bool :=
  decide (mipmap < 0) || decide (mipmap > toI32 (mipmapCount : Int))

/-- Lines 128-145: the input format chosen from the header, `none` where the source returns
false. -/
def selectInputFormat {D : Type} (dds : DirectDrawSurface D) : Option InputFormat :=
  if dds.hasDX10Header then
    if dds.dxgiFormat = DXGI_FORMAT_R16G16B16A16_FLOAT then some InputFormat.RGBA_16F
    else if dds.dxgiFormat = DXGI_FORMAT_R32G32B32A32_FLOAT then some InputFormat.RGBA_32F
    else none
  else
    if Nat.land dds.pfFlags DDPF_FOURCC ≠ 0 then
      if dds.pfFourcc = D3DFMT_A16B16G16R16F then some InputFormat.RGBA_16F
      else if dds.pfFourcc = D3DFMT_A32B32G32R32F then some InputFormat.RGBA_32F
      else none
    else
      if dds.pfBitcount = 32 then some InputFormat.BGRA_8UB
      else none

/-- The method `CubeSurface::load(fileName, mipmap)`.  `extension` is
`Path::extension(fileName)` and `dds` the reader opened on `fileName`.  Returns the boolean
result and the heap after the call. -/
def CubeSurface.load {S D : Type} (ops : SurfaceOps S D) (h : Heap S) (self : CubeSurface)
    (extension : String) (dds : DirectDrawSurface D) (mipmap : Int) : Bool × Heap S :=
  if extension = ".dds" then
    if !dds.isValid then (false, h)
    else if !dds.isTextureCube then (false, h)
    else if dds.width ≠ dds.height then (false, h)
    else
      let mipmap := resolveMipmap dds.mipmapCount mipmap
      if mipmapRejected dds.mipmapCount mipmap then (false, h)
      else
        match selectInputFormat dds with
        | none => (false, h)
        | some inputFormat =>
          let edgeLength := dds.surfaceWidth mipmap.toNat
          let h := forLoop 6 (fun f h =>
            let data := dds.readSurface f mipmap.toNat
            h.modify self.m (fun p =>
              p.setFace f (ops.setImage inputFormat edgeLength edgeLength 1 data (p.face f)))) h
          let h := h.modify self.m (fun p => { p with edgeLength := edgeLength })
          (true, h)
  else (false, h)

/-! ## toLinear, toGamma (lines 473-493) -/

/-- The method `toLinear(gamma)`: nothing on a null cube; otherwise `detach()` and
`m->face[i].toLinear(gamma)` for `i = 0, …, 5`. -/
def CubeSurface.toLinear {S D : Type} (ops : SurfaceOps S D) (h : Heap S) (self : CubeSurface)
    (gamma : ℝ) : CubeSurface × Heap S :=
  if CubeSurface.isNull h self then (self, h)
  else
    let r := CubeSurface.detach h self
    (r.1, forLoop 6 (fun i h =>
      h.modify r.1.m (fun p => p.setFace i (ops.toLinear gamma (p.face i)))) r.2)

/-- The method `toGamma(gamma)`: nothing on a null cube; otherwise `detach()` and
`m->face[i].toGamma(gamma)` for `i = 0, …, 5`. -/
def CubeSurface.toGamma {S D : Type} (ops : SurfaceOps S D) (h : Heap S) (self : CubeSurface)
    (gamma : ℝ) : CubeSurface × Heap S :=
  if CubeSurface.isNull h self then (self, h)
  else
    let r := CubeSurface.detach h self
    (r.1, forLoop 6 (fun i h =>
      h.modify r.1.m (fun p => p.setFace i (ops.toGamma gamma (p.face i)))) r.2)

/-! ## Quantities used to state the properties -/

/-- The operation `op` on arrays keeps the length and overwrites exactly the entries
`lo ≤ j < hi` (those that exist) with `val j`. -/
def Fills {α : Type} (op : List α → List α) (lo hi : Nat) (val : Nat → α) : Prop :=
  ∀ d : List α, (op d).length = d.length ∧
    ∀ j, (op d)[j]? = if lo ≤ j ∧ j < hi ∧ j < d.length then some (val j) else d[j]?

/-- The value the constructor stores at index `j` of the solid angle table. -/
noncomputable def solidAngleEntry (N j : Nat) : ℝ :=
  solidAngleTerm (128 + j % (N / 2)) (128 + j / (N / 2)) (1 / (N : ℝ))

/-- The value the constructor stores at index `j` of the vector table. -/
noncomputable def vectorEntry (N j : Nat) : Vector3 :=
  texelDirection (j / (N * N)) (j % N) (j / N % N) (1 / (N : ℝ))

/-- The operation `op` on output cubes keeps the edge length and stores `val f x y` at
exactly the texels `(f, x, y)` that satisfy `P`. -/
def Writes (op : FilteredCube → FilteredCube) (P : Nat → Nat → Nat → Prop)
    (val : Nat → Nat → Nat → Except Fault Vector3) : Prop :=
  ∀ c : FilteredCube, (op c).edgeLength = c.edgeLength ∧
    ∀ f x y, (P f x y → (op c).pixel f x y = val f x y) ∧
      (¬ P f x y → (op c).pixel f x y = c.pixel f x y)

/-- The vector lies on the surface of the cube `[-1, 1]^3`: no component exceeds 1 in
absolute value and one of them has absolute value 1. -/
def OnCubeSurface (a : Vector3) : Prop :=
  |a.x| ≤ 1 ∧ |a.y| ≤ 1 ∧ |a.z| ≤ 1 ∧ (|a.x| = 1 ∨ |a.y| = 1 ∨ |a.z| = 1)

/-- The value `SolidAngleTable(N).lookup(xx, yy)` returns for an even `N`: the solid angle
term the constructor computed at texel `(128 + xx', 128 + yy')`, with `xx'`, `yy'` the folded
coordinates. -/
noncomputable def tableSolidAngle (N xx yy : Nat) : ℝ :=
  solidAngleTerm (128 + SolidAngleTable.foldCoord (N / 2) xx)
    (128 + SolidAngleTable.foldCoord (N / 2) yy) (1 / (N : ℝ))

/-- The `scale` of input texel `(ff, xx, yy)` of a cube of edge length `N` for the filter
direction `filterDir`. -/
noncomputable def texelScale (N : Nat) (filterDir : Vector3) (cosinePower : ℝ)
    (ff xx yy : Nat) : ℝ :=
  lobeScale (texelDirection ff xx yy (1 / (N : ℝ))) filterDir cosinePower

/-- The `contribution` that input texel `(ff, xx, yy)` adds to `sum`: `solidAngle * scale`
when `scale > threshold`, nothing otherwise. -/
noncomputable def texelWeight (N : Nat) (filterDir : Vector3) (cosinePower : ℝ)
    (ff xx yy : Nat) : ℝ :=
  if texelScale N filterDir cosinePower ff xx yy > threshold then
    tableSolidAngle N xx yy * texelScale N filterDir cosinePower ff xx yy
  else 0

/-- The operation `op` on the accumulators adds `w` to `sum` and `cr`, `cg`, `cb` to the
components of `color`, without a fault. -/
def Accumulates (op : Except Fault GatherState → Except Fault GatherState)
    (w cr cg cb : ℝ) : Prop :=
  ∀ s : GatherState, op (.ok s) =
    .ok { color := ⟨s.color.x + cr, s.color.y + cg, s.color.z + cb⟩, sum := s.sum + w }

/-- Every texel of the six faces of `cube` has the colour `C`. -/
def SourceCube.Uniform (cube : SourceCube) (C : Vector3) : Prop :=
  ∀ ff xx yy, ff < 6 → xx < cube.edgeLength → yy < cube.edgeLength →
    (cube.face ff).pixel 0 xx yy = C.x ∧ (cube.face ff).pixel 1 xx yy = C.y ∧
      (cube.face ff).pixel 2 xx yy = C.z

/-- The cube of edge length `N` whose texels all have the colour `(1,0,0)`. -/
noncomputable def redCube (N : Nat) : SourceCube :=
  { edgeLength := N
    face := fun _ => { pixel := fun c _ _ => if c = 0 then 1 else 0 } }

/-! ## A concrete container and surface type, for evaluating `load` and the handles -/

/-- A surface that records what was stored in it: the width given to `setImage`, the buffer
(the face and mip level it was read from) and whether it was converted to linear space. -/
structure SampleSurface where
  /-- The width given to `setImage`. -/
  width : Nat
  /-- The face and mip level of the buffer given to `setImage`. -/
  source : Nat × Nat
  /-- Set by `toLinear`, cleared by `toGamma`. -/
  linear : Bool
  deriving DecidableEq

/-- The surface operations on `SampleSurface`. -/
def sampleOps : SurfaceOps SampleSurface (Nat × Nat) :=
  { setImage := fun _ w _ _ data _ => { width := w, source := data, linear := false }
    toLinear := fun _ s => { s with linear := true }
    toGamma := fun _ s => { s with linear := false } }

/-- A default-constructed `SampleSurface`. -/
def SampleSurface.empty : SampleSurface := { width := 0, source := (0, 0), linear := false }

/-- A valid square cube container of top-level width `top` with `mipmapCount` levels in
32-bit float RGBA (DX10 header); level `m` has width `max 1 (top / 2^m)` and the buffer read
for face `f` of level `m` is the pair `(f, m)`. -/
def sampleCube (top mipmapCount : Nat) : DirectDrawSurface (Nat × Nat) :=
  { isValid := true
    isTextureCube := true
    width := top
    height := top
    mipmapCount := mipmapCount
    hasDX10Header := true
    dxgiFormat := DXGI_FORMAT_R32G32B32A32_FLOAT
    pfFlags := 0
    pfFourcc := 0
    pfBitcount := 0
    surfaceWidth := fun m => max 1 (top / 2 ^ m)
    readSurface := fun f m => (f, m) }

/-- The heap with no object. -/
def Heap.empty {S : Type} : Heap S := { cell := fun _ => none, next := 0 }

/-- The allocator invariant: no object lives at or above the next fresh address, so `new`
never returns the address of a live object. -/
def Heap.WellFormed {S : Type} (h : Heap S) : Prop :=
  ∀ a, h.next ≤ a → h.cell a = none

/-- A fresh handle `CubeSurface a;` on the empty heap. -/
def freshCube : CubeSurface × Heap SampleSurface :=
  CubeSurface.new SampleSurface.empty Heap.empty

/-- Two handles that share one representation: `CubeSurface a; a.load(file, 0);
CubeSurface b(a);` with a container of width 4.  The components are `a`, `b` and the heap. -/
def sharedPair : CubeSurface × CubeSurface × Heap SampleSurface :=
  let a := freshCube
  let l := CubeSurface.load sampleOps a.2 a.1 ".dds" (sampleCube 4 1) 0
  let b := CubeSurface.copy l.2 a.1
  (a.1, b.1, b.2)

/-- A handle that holds a cube of edge length 4: `CubeSurface a; a.load(file, 0);`.  The
components are `a` and the heap. -/
def loadedCube : CubeSurface × Heap SampleSurface :=
  (freshCube.1, (CubeSurface.load sampleOps freshCube.2 freshCube.1 ".dds" (sampleCube 4 1) 0).2)

/-- The representation that `loadedCube` points to. -/
def loadedPrivate : Private SampleSurface :=
  (loadedCube.2.cell loadedCube.1.m).getD (Private.empty SampleSurface.empty)

/-! ## Writing a table with nested loops -/

theorem Fills.set {α : Type} (k : Nat) (a : α) (val : Nat → α) (h : val k = a) :
    Fills (fun d => d.set k a) k (k + 1) val := by
  intro d
  refine ⟨by simp, fun j => ?_⟩
  rw [List.getElem?_set]
  by_cases hj : k = j
  · subst hj
    by_cases hl : k < d.length
    · simp [hl, h]
    · simp [hl]
      omega
  · have : ¬ (k ≤ j ∧ j < k + 1 ∧ j < d.length) := by omega
    simp [hj, this]

theorem Fills.empty {α : Type} (lo : Nat) (val : Nat → α) :
    Fills (fun d : List α => d) lo lo val := by
  intro d
  refine ⟨rfl, fun j => ?_⟩
  have : ¬ (lo ≤ j ∧ j < lo ∧ j < d.length) := by omega
  simp [this]

theorem Fills.comp {α : Type} {op1 op2 : List α → List α} {lo mid hi : Nat} {val : Nat → α}
    (h1 : Fills op1 lo mid val) (h2 : Fills op2 mid hi val) (hlm : lo ≤ mid) (hmh : mid ≤ hi) :
    Fills (fun d => op2 (op1 d)) lo hi val := by
  intro d
  obtain ⟨l1, g1⟩ := h1 d
  obtain ⟨l2, g2⟩ := h2 (op1 d)
  refine ⟨by rw [l2, l1], fun j => ?_⟩
  rw [g2 j, g1 j, l1]
  by_cases a : mid ≤ j ∧ j < hi ∧ j < d.length
  · have : lo ≤ j ∧ j < hi ∧ j < d.length := by omega
    simp [a, this]
  · by_cases b : lo ≤ j ∧ j < mid ∧ j < d.length
    · have : lo ≤ j ∧ j < hi ∧ j < d.length := by omega
      simp [a, b, this]
    · have : ¬ (lo ≤ j ∧ j < hi ∧ j < d.length) := by omega
      simp [a, b, this]

theorem forLoop_succ {σ : Type} (n : Nat) (body : Nat → σ → σ) (s : σ) :
    forLoop (n + 1) body s = body n (forLoop n body s) := by
  simp [forLoop, List.range_succ, List.foldl_append]

theorem forLoop_zero {σ : Type} (body : Nat → σ → σ) (s : σ) : forLoop 0 body s = s := by
  simp [forLoop]

/-- A loop whose `i`-th iteration fills the block `[base + i*w, base + (i+1)*w)` fills
`[base, base + n*w)`. -/
theorem Fills.loop {α : Type} (n w base : Nat) (body : Nat → List α → List α) (val : Nat → α)
    (h : ∀ i, i < n → Fills (body i) (base + i * w) (base + (i + 1) * w) val) :
    Fills (forLoop n body) base (base + n * w) val := by
  induction n with
  | zero =>
    have e : (forLoop 0 body) = (fun d : List α => d) := by
      funext d
      exact forLoop_zero body d
    rw [e]
    simpa using Fills.empty base val
  | succ n ih =>
    have e : (forLoop (n + 1) body) = (fun d => body n (forLoop n body d)) := by
      funext d
      exact forLoop_succ n body d
    rw [e]
    refine Fills.comp (ih (fun i hi => h i (by omega))) (h n (by omega)) ?_ ?_
    · exact Nat.le_add_right _ _
    · apply Nat.add_le_add_left
      exact Nat.mul_le_mul_right _ (by omega)

theorem Fills.cast {α : Type} {op : List α → List α} {lo hi lo' hi' : Nat} {val : Nat → α}
    (h : Fills op lo hi val) (e1 : lo = lo') (e2 : hi = hi') : Fills op lo' hi' val := by
  subst e1
  subst e2
  exact h

/-! ## The contents of the solid angle table -/

theorem SolidAngleTable.init_row_fills (N y : Nat) :
    Fills (forLoop (N / 2) (fun x d =>
        d.set (y * (N / 2) + x) (solidAngleTerm (128 + x) (128 + y) (1 / (N : ℝ)))))
      (y * (N / 2)) ((y + 1) * (N / 2)) (solidAngleEntry N) := by
  refine Fills.cast (Fills.loop (N / 2) 1 (y * (N / 2)) _ (solidAngleEntry N) ?_) rfl ?_
  · intro x hx
    refine Fills.cast (Fills.set (y * (N / 2) + x) _ (solidAngleEntry N) ?_) (by ring) (by ring)
    have hpos : 0 < N / 2 := by omega
    have e1 : (y * (N / 2) + x) % (N / 2) = x := by
      rw [Nat.mul_comm, Nat.mul_add_mod, Nat.mod_eq_of_lt hx]
    have e2 : (y * (N / 2) + x) / (N / 2) = y := by
      rw [Nat.mul_comm, Nat.mul_add_div hpos, Nat.div_eq_of_lt hx, Nat.add_zero]
    simp only [solidAngleEntry, e1, e2]
  · ring

theorem SolidAngleTable.init_fills (N : Nat) :
    Fills (forLoop (N / 2) (fun y d => forLoop (N / 2) (fun x d =>
        d.set (y * (N / 2) + x) (solidAngleTerm (128 + x) (128 + y) (1 / (N : ℝ)))) d))
      0 ((N / 2) * (N / 2)) (solidAngleEntry N) := by
  refine Fills.cast (Fills.loop (N / 2) (N / 2) 0 _ (solidAngleEntry N) ?_) rfl (by ring)
  intro y _
  exact Fills.cast (SolidAngleTable.init_row_fills N y) (by ring) (by ring)

theorem SolidAngleTable.init_size (N : Nat) : (SolidAngleTable.init N).size = N / 2 := rfl

theorem SolidAngleTable.init_data_length (N : Nat) :
    (SolidAngleTable.init N).data.length = (N / 2) * (N / 2) := by
  have h := (SolidAngleTable.init_fills N (List.replicate ((N / 2) * (N / 2)) 0)).1
  simpa [SolidAngleTable.init] using h

theorem SolidAngleTable.init_data_getElem? (N j : Nat) (hj : j < (N / 2) * (N / 2)) :
    (SolidAngleTable.init N).data[j]? = some (solidAngleEntry N j) := by
  have h := (SolidAngleTable.init_fills N (List.replicate ((N / 2) * (N / 2)) 0)).2 j
  simp only [List.length_replicate, Nat.zero_le, hj, and_self, if_true] at h
  simpa [SolidAngleTable.init] using h

theorem SolidAngleTable.foldCoord_lt (N x : Nat) (hN : N % 2 = 0) (hx : x < N) :
    SolidAngleTable.foldCoord (N / 2) x < N / 2 := by
  unfold SolidAngleTable.foldCoord
  split_ifs <;> omega

/-- For an even edge length every lookup inside the face reads the table entry of the folded
coordinates, which the constructor computed at texel `(128 + x', 128 + y')`. -/
theorem SolidAngleTable.lookup_init (N x y : Nat) (hN : N % 2 = 0) (hx : x < N) (hy : y < N) :
    (SolidAngleTable.init N).lookup x y =
      some (solidAngleTerm (128 + SolidAngleTable.foldCoord (N / 2) x)
        (128 + SolidAngleTable.foldCoord (N / 2) y) (1 / (N : ℝ))) := by
  have hx' := SolidAngleTable.foldCoord_lt N x hN hx
  have hy' := SolidAngleTable.foldCoord_lt N y hN hy
  have hpos : 0 < N / 2 := by omega
  unfold SolidAngleTable.lookup SolidAngleTable.lookupIndex
  rw [SolidAngleTable.init_size]
  have hlt : SolidAngleTable.foldCoord (N / 2) y * (N / 2) + SolidAngleTable.foldCoord (N / 2) x
      < (N / 2) * (N / 2) := by
    calc SolidAngleTable.foldCoord (N / 2) y * (N / 2) + SolidAngleTable.foldCoord (N / 2) x
        < SolidAngleTable.foldCoord (N / 2) y * (N / 2) + N / 2 := by omega
      _ = (SolidAngleTable.foldCoord (N / 2) y + 1) * (N / 2) := by ring
      _ ≤ (N / 2) * (N / 2) := Nat.mul_le_mul_right _ hy'
  rw [SolidAngleTable.init_data_getElem? N _ hlt]
  have e1 : (SolidAngleTable.foldCoord (N / 2) y * (N / 2) + SolidAngleTable.foldCoord (N / 2) x)
      % (N / 2) = SolidAngleTable.foldCoord (N / 2) x := by
    rw [Nat.mul_comm, Nat.mul_add_mod, Nat.mod_eq_of_lt hx']
  have e2 : (SolidAngleTable.foldCoord (N / 2) y * (N / 2) + SolidAngleTable.foldCoord (N / 2) x)
      / (N / 2) = SolidAngleTable.foldCoord (N / 2) y := by
    rw [Nat.mul_comm, Nat.mul_add_div hpos, Nat.div_eq_of_lt hx', Nat.add_zero]
  simp only [solidAngleEntry, e1, e2]

/-! ## The solid angle of a quad is positive -/

theorem sqrt_arg_pos (x y : ℝ) : 0 < x * x + y * y + 1 := by
  nlinarith [mul_self_nonneg x, mul_self_nonneg y]

theorem mul_sqrt_lt {c y0 y1 : ℝ} (hc : 0 < c) (h : y0 < y1) :
    y0 * Real.sqrt (c + y1 * y1) < y1 * Real.sqrt (c + y0 * y0) := by
  have p0 : 0 < c + y0 * y0 := by nlinarith [mul_self_nonneg y0]
  have p1 : 0 < c + y1 * y1 := by nlinarith [mul_self_nonneg y1]
  have s0 := Real.sqrt_pos.mpr p0
  have s1 := Real.sqrt_pos.mpr p1
  have q0 : Real.sqrt (c + y0 * y0) * Real.sqrt (c + y0 * y0) = c + y0 * y0 :=
    Real.mul_self_sqrt p0.le
  have q1 : Real.sqrt (c + y1 * y1) * Real.sqrt (c + y1 * y1) = c + y1 * y1 :=
    Real.mul_self_sqrt p1.le
  by_contra hne
  push_neg at hne
  rcases le_or_lt 0 y0 with h0 | h0
  · have hy1 : 0 < y1 := lt_of_le_of_lt h0 h
    have hsq := mul_self_le_mul_self (mul_nonneg hy1.le s0.le) hne
    have e1 : y1 * Real.sqrt (c + y0 * y0) * (y1 * Real.sqrt (c + y0 * y0)) =
        y1 * y1 * (c + y0 * y0) := by linear_combination (y1 * y1) * q0
    have e2 : y0 * Real.sqrt (c + y1 * y1) * (y0 * Real.sqrt (c + y1 * y1)) =
        y0 * y0 * (c + y1 * y1) := by linear_combination (y0 * y0) * q1
    rw [e1, e2] at hsq
    have : y0 * y0 < y1 * y1 := mul_self_lt_mul_self h0 h
    nlinarith
  · rcases le_or_lt 0 y1 with h1 | h1
    · have a := mul_nonneg h1 s0.le
      have b := mul_pos (neg_pos.mpr h0) s1
      linarith
    · have hle : -(y0 * Real.sqrt (c + y1 * y1)) ≤ -(y1 * Real.sqrt (c + y0 * y0)) := by linarith
      have hnn : 0 ≤ -(y0 * Real.sqrt (c + y1 * y1)) := by
        have := mul_pos (neg_pos.mpr h0) s1
        linarith
      have hsq := mul_self_le_mul_self hnn hle
      have e1 : -(y1 * Real.sqrt (c + y0 * y0)) * -(y1 * Real.sqrt (c + y0 * y0)) =
          y1 * y1 * (c + y0 * y0) := by linear_combination (y1 * y1) * q0
      have e2 : -(y0 * Real.sqrt (c + y1 * y1)) * -(y0 * Real.sqrt (c + y1 * y1)) =
          y0 * y0 * (c + y1 * y1) := by linear_combination (y0 * y0) * q1
      rw [e1, e2] at hsq
      have : (-y1) * (-y1) < (-y0) * (-y0) :=
        mul_self_lt_mul_self (by linarith) (by linarith)
      nlinarith

theorem hasDerivAt_arctan_quad (x y : ℝ) :
    HasDerivAt (fun t => Real.arctan (t * y / Real.sqrt (t * t + y * y + 1)))
      (y / ((1 + x ^ 2) * Real.sqrt (x * x + y * y + 1))) x := by
  have hp := sqrt_arg_pos x y
  have hs := Real.sqrt_pos.mpr hp
  have hsq : Real.sqrt (x * x + y * y + 1) ^ 2 = x * x + y * y + 1 := Real.sq_sqrt hp.le
  have h1 : HasDerivAt (fun t : ℝ => t * t + y * y + 1) (2 * x) x := by
    have h := (((hasDerivAt_id x).mul (hasDerivAt_id x)).add_const (y * y)).add_const 1
    simp only [id] at h
    convert h using 1
    ring
  have h2 := h1.sqrt hp.ne'
  have h3 : HasDerivAt (fun t : ℝ => t * y) y x := by
    have h := (hasDerivAt_id x).mul_const y
    simpa using h
  have h4 := (h3.div h2 hs.ne').arctan
  convert h4 using 1
  set s := Real.sqrt (x * x + y * y + 1) with hsdef
  have hs2 : s ^ 2 = x * x + y * y + 1 := hsq
  have hne : s ≠ 0 := hs.ne'
  have hx1 : (0:ℝ) < 1 + x ^ 2 := by positivity
  have hden : 1 + (x * y / s) ^ 2 ≠ 0 := by positivity
  field_simp
  linear_combination (-2 * y * s ^ 3 * x ^ 2) * hs2

theorem areaElement_eq_arctan (x y : ℝ) :
    areaElement x y = Real.arctan (x * y / Real.sqrt (x * x + y * y + 1)) := by
  unfold areaElement
  simp [atan2, Real.sqrt_pos.mpr (sqrt_arg_pos x y)]

/-- For `y0 < y1` the difference `areaElement x y1 - areaElement x y0` grows strictly with `x`. -/
theorem areaElement_diff_strictMono {y0 y1 : ℝ} (hy : y0 < y1) :
    StrictMono (fun x => areaElement x y1 - areaElement x y0) := by
  have e : (fun x => areaElement x y1 - areaElement x y0) =
      (fun x => Real.arctan (x * y1 / Real.sqrt (x * x + y1 * y1 + 1)) -
        Real.arctan (x * y0 / Real.sqrt (x * x + y0 * y0 + 1))) := by
    funext x
    rw [areaElement_eq_arctan, areaElement_eq_arctan]
  rw [e]
  apply strictMono_of_deriv_pos
  intro x
  rw [((hasDerivAt_arctan_quad x y1).sub (hasDerivAt_arctan_quad x y0)).deriv]
  have hx1 : (0:ℝ) < 1 + x ^ 2 := by positivity
  have s0 := Real.sqrt_pos.mpr (sqrt_arg_pos x y0)
  have s1 := Real.sqrt_pos.mpr (sqrt_arg_pos x y1)
  have hc : (0:ℝ) < x * x + 1 := by nlinarith [mul_self_nonneg x]
  have key := mul_sqrt_lt hc hy
  have r0 : x * x + 1 + y0 * y0 = x * x + y0 * y0 + 1 := by ring
  have r1 : x * x + 1 + y1 * y1 = x * x + y1 * y1 + 1 := by ring
  rw [r0, r1] at key
  rw [sub_pos, div_lt_div_iff₀ (mul_pos hx1 s0) (mul_pos hx1 s1)]
  nlinarith

/-- The solid angle of a quad with `x0 < x1` and `y0 < y1` is strictly positive. -/
theorem areaElement_rect_pos {x0 x1 y0 y1 : ℝ} (hx : x0 < x1) (hy : y0 < y1) :
    0 < areaElement x0 y0 - areaElement x0 y1 - areaElement x1 y0 + areaElement x1 y1 := by
  have h := areaElement_diff_strictMono hy hx
  simp only at h
  linarith

theorem solidAngleTerm_pos (x y : Nat) (ilen : ℝ) (h : 0 < ilen) :
    0 < solidAngleTerm x y ilen := by
  unfold solidAngleTerm
  exact areaElement_rect_pos (by linarith) (by linarith)

/-! ## The table of edge length 2 -/

theorem arctan_lt_self {x : ℝ} (hx : 0 < x) : Real.arctan x < x := by
  have h0 : 0 < Real.arctan x := by
    have := Real.arctan_strictMono hx
    rwa [Real.arctan_zero] at this
  have h := Real.lt_tan h0 (Real.arctan_lt_pi_div_two x)
  rwa [Real.tan_arctan] at h

theorem areaElement_lt (x y : ℝ) : areaElement x y < Real.pi / 2 := by
  rw [areaElement_eq_arctan]
  exact Real.arctan_lt_pi_div_two _

theorem areaElement_gt (a b : ℝ) (ha : 0 < a) (hb : 0 < b) :
    Real.pi / 2 - Real.sqrt (a * a + b * b + 1) / (a * b) < areaElement a b := by
  rw [areaElement_eq_arctan]
  have hs : 0 < Real.sqrt (a * a + b * b + 1) := Real.sqrt_pos.mpr (sqrt_arg_pos a b)
  have hab : 0 < a * b := mul_pos ha hb
  have ht : 0 < Real.sqrt (a * a + b * b + 1) / (a * b) := div_pos hs hab
  have h1 := Real.arctan_inv_of_pos ht
  rw [inv_div] at h1
  have h2 := arctan_lt_self ht
  linarith

/-- The entry the constructor computes for edge length 2, at texel `(128, 128)`. -/
theorem solidAngleTerm_128_half :
    solidAngleTerm 128 128 (1 / ((2 : Nat) : ℝ)) =
      areaElement 127 127 - areaElement 127 128 - areaElement 128 127 + areaElement 128 128 := by
  unfold solidAngleTerm texelCenter
  norm_num

theorem solidAngleTerm_128_half_lt : solidAngleTerm 128 128 (1 / ((2 : Nat) : ℝ)) < 1 / 31 := by
  rw [solidAngleTerm_128_half]
  have h1 := areaElement_lt 127 127
  have h2 := areaElement_lt 128 128
  have h3 := areaElement_gt 127 128 (by norm_num) (by norm_num)
  have h4 := areaElement_gt 128 127 (by norm_num) (by norm_num)
  have s1 : Real.sqrt (127 * 127 + 128 * 128 + 1) ≤ 256 := by
    rw [Real.sqrt_le_iff]
    constructor <;> norm_num
  have s2 : Real.sqrt (128 * 128 + 127 * 127 + 1) ≤ 256 := by
    rw [Real.sqrt_le_iff]
    constructor <;> norm_num
  have d1 : Real.sqrt (127 * 127 + 128 * 128 + 1) / (127 * 128) ≤ 256 / (127 * 128) :=
    div_le_div_of_nonneg_right s1 (by norm_num)
  have d2 : Real.sqrt (128 * 128 + 127 * 127 + 1) / (128 * 127) ≤ 256 / (128 * 127) :=
    div_le_div_of_nonneg_right s2 (by norm_num)
  norm_num at d1 d2
  linarith

/-- The exact solid angle of texel `(0, 0)` of a face of edge length 2. -/
theorem solidAngleTerm_0_half : solidAngleTerm 0 0 (1 / ((2 : Nat) : ℝ)) = Real.pi / 6 := by
  have e : solidAngleTerm 0 0 (1 / ((2 : Nat) : ℝ)) =
      areaElement (-1) (-1) - areaElement (-1) 0 - areaElement 0 (-1) + areaElement 0 0 := by
    unfold solidAngleTerm texelCenter
    norm_num
  rw [e]
  simp only [areaElement_eq_arctan]
  norm_num
  apply Real.arctan_eq_of_tan_eq
  · rw [Real.tan_pi_div_six]
    norm_num
  · constructor <;> linarith [Real.pi_pos]

theorem SolidAngleTable.lookup_init_two (x y : Nat) (hx : x < 2) (hy : y < 2) :
    (SolidAngleTable.init 2).lookup x y = some (solidAngleTerm 128 128 (1 / ((2 : Nat) : ℝ))) := by
  rw [SolidAngleTable.lookup_init 2 x y rfl hx hy]
  have ex : SolidAngleTable.foldCoord (2 / 2) x = 0 := by
    interval_cases x <;> rfl
  have ey : SolidAngleTable.foldCoord (2 / 2) y = 0 := by
    interval_cases y <;> rfl
  rw [ex, ey]

theorem SolidAngleTable.faceSum_two :
    (SolidAngleTable.init 2).faceSum 2 = 4 * solidAngleTerm 128 128 (1 / ((2 : Nat) : ℝ)) := by
  unfold SolidAngleTable.faceSum
  simp only [Finset.sum_range_succ, Finset.sum_range_zero, zero_add]
  rw [SolidAngleTable.lookup_init_two 0 0 (by decide) (by decide),
    SolidAngleTable.lookup_init_two 0 1 (by decide) (by decide),
    SolidAngleTable.lookup_init_two 1 0 (by decide) (by decide),
    SolidAngleTable.lookup_init_two 1 1 (by decide) (by decide)]
  simp only [Option.getD_some]
  ring

/-- C1, at edge length 2: `lookup(0, 0)` returns the value the constructor computed at texel
`(128, 128)`, which is below the exact solid angle `π / 6` of texel `(0, 0)`; the texel
coordinate `u = 127.5` of that constructor call also fails the debug check of
`solidAngleTerm`. -/
theorem SolidAngleTable.lookup_two_ne_solidAngleTerm :
    (SolidAngleTable.init 2).lookup 0 0 = some (solidAngleTerm 128 128 (1 / ((2 : Nat) : ℝ))) ∧
    solidAngleTerm 128 128 (1 / ((2 : Nat) : ℝ)) < solidAngleTerm 0 0 (1 / ((2 : Nat) : ℝ)) ∧
    (SolidAngleTable.init 2).lookup 0 0 ≠ some (solidAngleTerm 0 0 (1 / ((2 : Nat) : ℝ))) ∧
    ¬ solidAngleTermRangeCheck (texelCenter 128 (1 / ((2 : Nat) : ℝ))) := by
  have hlt : solidAngleTerm 128 128 (1 / ((2 : Nat) : ℝ)) <
      solidAngleTerm 0 0 (1 / ((2 : Nat) : ℝ)) := by
    rw [solidAngleTerm_0_half]
    have := solidAngleTerm_128_half_lt
    have := Real.pi_gt_three
    linarith
  refine ⟨SolidAngleTable.lookup_init_two 0 0 (by decide) (by decide), hlt, ?_, ?_⟩
  · rw [SolidAngleTable.lookup_init_two 0 0 (by decide) (by decide)]
    intro h
    have := Option.some.inj h
    linarith
  · unfold solidAngleTermRangeCheck texelCenter
    norm_num

/-- C2, at edge length 2: every lookup of the face returns the entry computed at texel
`(128, 128)`, six times the sum over the face is below 1, and so it is not within relative
tolerance `1e-3` of `4π`. -/
theorem SolidAngleTable.faceSum_two_not_within_tolerance :
    (∀ x y : Nat, x < 2 → y < 2 → (SolidAngleTable.init 2).lookup x y =
      some (solidAngleTerm 128 128 (1 / ((2 : Nat) : ℝ)))) ∧
    6 * (SolidAngleTable.init 2).faceSum 2 < 1 ∧
    ¬ |6 * (SolidAngleTable.init 2).faceSum 2 - 4 * Real.pi| ≤ (1 / 1000) * (4 * Real.pi) := by
  have hb := solidAngleTerm_128_half_lt
  have hpi := Real.pi_gt_three
  refine ⟨SolidAngleTable.lookup_init_two, ?_, ?_⟩
  · rw [SolidAngleTable.faceSum_two]
    linarith
  · rw [SolidAngleTable.faceSum_two]
    intro h
    have := (abs_le.mp h).1
    linarith

/-! ## The contents of the vector table -/

theorem vectorEntry_index (N f x y : Nat) (hx : x < N) (hy : y < N) :
    vectorEntry N ((f * N + y) * N + x) = texelDirection f x y (1 / (N : ℝ)) := by
  have hpos : 0 < N := by omega
  have e1 : ((f * N + y) * N + x) % N = x := by
    rw [Nat.mul_comm, Nat.mul_add_mod, Nat.mod_eq_of_lt hx]
  have e2 : ((f * N + y) * N + x) / N = f * N + y := by
    rw [Nat.mul_comm, Nat.mul_add_div hpos, Nat.div_eq_of_lt hx, Nat.add_zero]
  have e3 : (f * N + y) % N = y := by
    rw [Nat.mul_comm, Nat.mul_add_mod, Nat.mod_eq_of_lt hy]
  have e4 : ((f * N + y) * N + x) / (N * N) = f := by
    rw [← Nat.div_div_eq_div_mul, e2, Nat.mul_comm, Nat.mul_add_div hpos, Nat.div_eq_of_lt hy,
      Nat.add_zero]
  simp only [vectorEntry, e1, e2, e3, e4]

theorem vectorTable_init_row_fills (N f y : Nat) (hy : y < N) :
    Fills (forLoop N (fun x d =>
        d.set ((f * N + y) * N + x) (texelDirection f x y (1 / (N : ℝ)))))
      ((f * N + y) * N) ((f * N + y) * N + N) (vectorEntry N) := by
  refine Fills.cast (Fills.loop N 1 ((f * N + y) * N) _ (vectorEntry N) ?_) rfl (by ring)
  intro x hx
  exact Fills.cast (Fills.set ((f * N + y) * N + x) _ (vectorEntry N)
    (vectorEntry_index N f x y hx hy)) (by ring) (by ring)

theorem vectorTable_init_face_fills (N f : Nat) :
    Fills (forLoop N (fun y d => forLoop N (fun x d =>
        d.set ((f * N + y) * N + x) (texelDirection f x y (1 / (N : ℝ)))) d))
      (f * (N * N)) ((f + 1) * (N * N)) (vectorEntry N) := by
  refine Fills.cast (Fills.loop N N (f * (N * N)) _ (vectorEntry N) ?_) rfl (by ring)
  intro y hy
  exact Fills.cast (vectorTable_init_row_fills N f y hy) (by ring) (by ring)

theorem vectorTable_init_fills (N : Nat) :
    Fills (forLoop 6 (fun f d => forLoop N (fun y d => forLoop N (fun x d =>
        d.set ((f * N + y) * N + x) (texelDirection f x y (1 / (N : ℝ)))) d) d))
      0 (N * N * 6) (vectorEntry N) := by
  refine Fills.cast (Fills.loop 6 (N * N) 0 _ (vectorEntry N) ?_) rfl (by ring)
  intro f _
  exact Fills.cast (vectorTable_init_face_fills N f) (by ring) (by ring)

theorem vectorTable_init_size (N : Nat) : (VectorTable.init N).size = N := rfl

theorem vectorTable_init_data_getElem? (N j : Nat) (hj : j < N * N * 6) :
    (VectorTable.init N).data[j]? = some (vectorEntry N j) := by
  have h := (vectorTable_init_fills N (List.replicate (N * N * 6) ⟨0, 0, 0⟩)).2 j
  simp only [List.length_replicate, Nat.zero_le, hj, and_self, if_true] at h
  simpa [VectorTable.init] using h

theorem vectorTable_lookupIndex_lt (N f x y : Nat) (hf : f < 6) (hx : x < N) (hy : y < N) :
    (f * N + y) * N + x < N * N * 6 := by
  calc (f * N + y) * N + x < (f * N + y) * N + N := by omega
    _ = (f * N + (y + 1)) * N := by ring
    _ ≤ (f * N + N) * N := Nat.mul_le_mul_right _ (by omega)
    _ = (f + 1) * (N * N) := by ring
    _ ≤ 6 * (N * N) := Nat.mul_le_mul_right _ (by omega)
    _ = N * N * 6 := by ring

/-- Every lookup with `f < 6` and `x, y < N` reads the direction the constructor computed for
that texel. -/
theorem vectorTable_lookup_init (N f x y : Nat) (hf : f < 6) (hx : x < N) (hy : y < N) :
    (VectorTable.init N).lookup f x y = some (texelDirection f x y (1 / (N : ℝ))) := by
  unfold VectorTable.lookup VectorTable.lookupIndex
  rw [vectorTable_init_size,
    vectorTable_init_data_getElem? N _ (vectorTable_lookupIndex_lt N f x y hf hx hy),
    vectorEntry_index N f x y hx hy]

/-! ## The gather loops -/
theorem accumulates_loop (n : Nat)
    (body : Nat → Except Fault GatherState → Except Fault GatherState)
    (w cr cg cb : Nat → ℝ)
    (h : ∀ i, i < n → Accumulates (body i) (w i) (cr i) (cg i) (cb i)) :
    Accumulates (forLoop n body) (∑ i in Finset.range n, w i) (∑ i in Finset.range n, cr i)
      (∑ i in Finset.range n, cg i) (∑ i in Finset.range n, cb i) := by
  induction n with
  | zero =>
    intro s
    simp [forLoop_zero]
  | succ n ih =>
    intro s
    rw [forLoop_succ, ih (fun i hi => h i (by omega)) s, h n (by omega)]
    simp only [Finset.sum_range_succ, add_assoc]

theorem gatherTexel_accumulates (cube : SourceCube) (N : Nat) (filterDir : Vector3)
    (p : ℝ) (ff xx yy : Nat) (hN : N % 2 = 0) (hf : ff < 6) (hx : xx < N) (hy : yy < N) :
    Accumulates
      (gatherTexel cube (SolidAngleTable.init N) (VectorTable.init N) filterDir p ff xx yy)
      (texelWeight N filterDir p ff xx yy)
      ((cube.face ff).pixel 0 xx yy * texelWeight N filterDir p ff xx yy)
      ((cube.face ff).pixel 1 xx yy * texelWeight N filterDir p ff xx yy)
      ((cube.face ff).pixel 2 xx yy * texelWeight N filterDir p ff xx yy) := by
  intro s
  unfold gatherTexel
  simp only [vectorTable_lookup_init N ff xx yy hf hx hy,
    SolidAngleTable.lookup_init N xx yy hN hx hy]
  by_cases hs : lobeScale (texelDirection ff xx yy (1 / (N : ℝ))) filterDir p > threshold
  · simp only [texelWeight, texelScale, tableSolidAngle, hs, if_true]
  · simp only [texelWeight, texelScale, hs, if_false, mul_zero, add_zero]

/-- The accumulators after the three input loops, for an even source edge length: no fault,
`sum` is the sum of the contributions and `color` the contribution-weighted sum of the
pixels. -/
theorem gather_eq (cube : SourceCube) (filterDir : Vector3) (p : ℝ)
    (hN : cube.edgeLength % 2 = 0) :
    gather cube (SolidAngleTable.init cube.edgeLength) (VectorTable.init cube.edgeLength)
        filterDir p =
      .ok { color :=
              ⟨∑ ff in Finset.range 6, ∑ yy in Finset.range cube.edgeLength,
                  ∑ xx in Finset.range cube.edgeLength,
                    (cube.face ff).pixel 0 xx yy * texelWeight cube.edgeLength filterDir p ff xx yy,
               ∑ ff in Finset.range 6, ∑ yy in Finset.range cube.edgeLength,
                  ∑ xx in Finset.range cube.edgeLength,
                    (cube.face ff).pixel 1 xx yy * texelWeight cube.edgeLength filterDir p ff xx yy,
               ∑ ff in Finset.range 6, ∑ yy in Finset.range cube.edgeLength,
                  ∑ xx in Finset.range cube.edgeLength,
                    (cube.face ff).pixel 2 xx yy * texelWeight cube.edgeLength filterDir p ff xx yy⟩
            sum := ∑ ff in Finset.range 6, ∑ yy in Finset.range cube.edgeLength,
                  ∑ xx in Finset.range cube.edgeLength,
                    texelWeight cube.edgeLength filterDir p ff xx yy } := by
  have h := accumulates_loop 6 (fun ff s =>
      forLoop cube.edgeLength (fun yy s =>
        forLoop cube.edgeLength (fun xx s =>
          gatherTexel cube (SolidAngleTable.init cube.edgeLength)
            (VectorTable.init cube.edgeLength) filterDir p ff xx yy s) s) s)
    _ _ _ _
    (fun ff hf => accumulates_loop cube.edgeLength _ _ _ _ _
      (fun yy hy => accumulates_loop cube.edgeLength _ _ _ _ _
        (fun xx hx => gatherTexel_accumulates cube cube.edgeLength filterDir p ff xx yy
          hN hf hx hy)))
  have h0 := h { color := ⟨0, 0, 0⟩, sum := 0 }
  simp only [zero_add] at h0
  exact h0

/-! ## Weights of the gather sum -/

theorem tableSolidAngle_pos (N xx yy : Nat) (hN0 : 0 < N) : 0 < tableSolidAngle N xx yy := by
  unfold tableSolidAngle
  apply solidAngleTerm_pos
  have : (0 : ℝ) < (N : ℝ) := by exact_mod_cast hN0
  positivity

theorem threshold_pos : 0 < threshold := by
  unfold threshold
  norm_num

theorem texelWeight_nonneg (N : Nat) (filterDir : Vector3) (p : ℝ) (ff xx yy : Nat)
    (hN0 : 0 < N) : 0 ≤ texelWeight N filterDir p ff xx yy := by
  unfold texelWeight
  split_ifs with h
  · have h1 := tableSolidAngle_pos N xx yy hN0
    have h2 : 0 < texelScale N filterDir p ff xx yy := lt_trans threshold_pos h
    exact (mul_pos h1 h2).le
  · exact le_refl 0

theorem writes_setPixel (f x y : Nat) (val : Nat → Nat → Nat → Except Fault Vector3) :
    Writes (fun c => c.setPixel f x y (val f x y)) (fun f' x' y' => f' = f ∧ x' = x ∧ y' = y)
      val := by
  intro c
  refine ⟨rfl, fun f' x' y' => ⟨fun h => ?_, fun h => ?_⟩⟩
  · obtain ⟨rfl, rfl, rfl⟩ := h
    simp [FilteredCube.setPixel]
  · simp only [FilteredCube.setPixel, if_neg h]

theorem writes_loop (n : Nat) (body : Nat → FilteredCube → FilteredCube)
    (P : Nat → Nat → Nat → Nat → Prop) (val : Nat → Nat → Nat → Except Fault Vector3)
    (h : ∀ i, i < n → Writes (body i) (P i) val) :
    Writes (forLoop n body) (fun f x y => ∃ i, i < n ∧ P i f x y) val := by
  induction n with
  | zero =>
    intro c
    rw [forLoop_zero]
    refine ⟨rfl, fun f x y => ⟨fun hP => ?_, fun _ => rfl⟩⟩
    obtain ⟨i, hi, _⟩ := hP
    omega
  | succ n ih =>
    intro c
    rw [forLoop_succ]
    obtain ⟨e1, g1⟩ := ih (fun i hi => h i (by omega)) c
    obtain ⟨e2, g2⟩ := h n (by omega) (forLoop n body c)
    refine ⟨by rw [e2, e1], fun f x y => ⟨fun hP => ?_, fun hP => ?_⟩⟩
    · by_cases hn : P n f x y
      · exact (g2 f x y).1 hn
      · rw [(g2 f x y).2 hn]
        obtain ⟨i, hi, hPi⟩ := hP
        have hin : i < n := by
          rcases Nat.lt_succ_iff_lt_or_eq.mp hi with hlt | heq
          · exact hlt
          · subst heq
            exact absurd hPi hn
        exact (g1 f x y).1 ⟨i, hin, hPi⟩
    · have hn : ¬ P n f x y := fun hc => hP ⟨n, by omega, hc⟩
      have hprev : ¬ ∃ i, i < n ∧ P i f x y := fun ⟨i, hi, hc⟩ => hP ⟨i, by omega, hc⟩
      rw [(g2 f x y).2 hn]
      exact (g1 f x y).2 hprev

/-- The output loops store, at every texel of the output cube, the value computed for that
texel, and the cube has the edge length asked for. -/
theorem cosinePowerFilter_pixel (cube : SourceCube) (size : Nat) (p : ℝ) (f x y : Nat)
    (hf : f < 6) (hx : x < size) (hy : y < size) :
    (cosinePowerFilter cube size p).edgeLength = size ∧
    (cosinePowerFilter cube size p).pixel f x y =
      filterTexel cube (SolidAngleTable.init cube.edgeLength) (VectorTable.init cube.edgeLength)
        size p f x y := by
  have W := writes_loop 6
    (fun f c => forLoop size (fun y c => forLoop size (fun x c =>
      c.setPixel f x y (filterTexel cube (SolidAngleTable.init cube.edgeLength)
        (VectorTable.init cube.edgeLength) size p f x y)) c) c)
    (fun f0 f x y => ∃ j, j < size ∧ ∃ i, i < size ∧ (f = f0 ∧ x = i ∧ y = j))
    (filterTexel cube (SolidAngleTable.init cube.edgeLength)
      (VectorTable.init cube.edgeLength) size p)
    (fun f0 _ => writes_loop size _
      (fun y0 f x y => ∃ i, i < size ∧ (f = f0 ∧ x = i ∧ y = y0)) _
      (fun y0 _ => writes_loop size _ (fun x0 f x y => f = f0 ∧ x = x0 ∧ y = y0) _
        (fun x0 _ => writes_setPixel f0 x0 y0 _)))
  obtain ⟨e, g⟩ := W { edgeLength := size, pixel := fun _ _ _ => .ok ⟨0, 0, 0⟩ }
  exact ⟨e, (g f x y).1 ⟨f, hf, y, hy, x, hx, rfl, rfl, rfl⟩⟩

theorem filterTexel_eq (cube : SourceCube) (size : Nat) (p : ℝ) (f x y : Nat) (s : GatherState)
    (hf : f < 6) (hx : x < size) (hy : y < size)
    (hs : gather cube (SolidAngleTable.init cube.edgeLength) (VectorTable.init cube.edgeLength)
      (texelDirection f x y (1 / (size : ℝ))) p = .ok s) :
    (cosinePowerFilter cube size p).pixel f x y = normalizeColor s := by
  rw [(cosinePowerFilter_pixel cube size p f x y hf hx hy).2]
  unfold filterTexel
  simp only [hs]

/-- A texel that passes the threshold makes the accumulated `sum` positive. -/
theorem weightSum_pos (N : Nat) (filterDir : Vector3) (p : ℝ) (hN0 : 0 < N)
    (ff xx yy : Nat) (hf : ff < 6) (hx : xx < N) (hy : yy < N)
    (h : texelScale N filterDir p ff xx yy > threshold) :
    0 < ∑ ff in Finset.range 6, ∑ yy in Finset.range N, ∑ xx in Finset.range N,
      texelWeight N filterDir p ff xx yy := by
  have hw : 0 < texelWeight N filterDir p ff xx yy := by
    unfold texelWeight
    rw [if_pos h]
    exact mul_pos (tableSolidAngle_pos N xx yy hN0) (lt_trans threshold_pos h)
  have h1 : texelWeight N filterDir p ff xx yy ≤
      ∑ xx in Finset.range N, texelWeight N filterDir p ff xx yy :=
    Finset.single_le_sum (f := fun xx => texelWeight N filterDir p ff xx yy)
      (fun i _ => texelWeight_nonneg N filterDir p ff i yy hN0) (Finset.mem_range.mpr hx)
  have h2 : (∑ xx in Finset.range N, texelWeight N filterDir p ff xx yy) ≤
      ∑ yy in Finset.range N, ∑ xx in Finset.range N, texelWeight N filterDir p ff xx yy :=
    Finset.single_le_sum
      (f := fun yy => ∑ xx in Finset.range N, texelWeight N filterDir p ff xx yy)
      (fun j _ => Finset.sum_nonneg (fun i _ => texelWeight_nonneg N filterDir p ff i j hN0))
      (Finset.mem_range.mpr hy)
  have h3 : (∑ yy in Finset.range N, ∑ xx in Finset.range N,
      texelWeight N filterDir p ff xx yy) ≤
      ∑ ff in Finset.range 6, ∑ yy in Finset.range N, ∑ xx in Finset.range N,
        texelWeight N filterDir p ff xx yy :=
    Finset.single_le_sum
      (f := fun ff => ∑ yy in Finset.range N, ∑ xx in Finset.range N,
        texelWeight N filterDir p ff xx yy)
      (fun k _ => Finset.sum_nonneg (fun j _ => Finset.sum_nonneg
        (fun i _ => texelWeight_nonneg N filterDir p k i j hN0)))
      (Finset.mem_range.mpr hf)
  linarith

theorem uniform_channel_sum (cube : SourceCube) (W : Nat → Nat → Nat → ℝ) (c : Nat) (a : ℝ)
    (h : ∀ ff xx yy, ff < 6 → xx < cube.edgeLength → yy < cube.edgeLength →
      (cube.face ff).pixel c xx yy = a) :
    (∑ ff in Finset.range 6, ∑ yy in Finset.range cube.edgeLength,
      ∑ xx in Finset.range cube.edgeLength, (cube.face ff).pixel c xx yy * W ff xx yy) =
    a * ∑ ff in Finset.range 6, ∑ yy in Finset.range cube.edgeLength,
      ∑ xx in Finset.range cube.edgeLength, W ff xx yy := by
  simp only [Finset.mul_sum]
  exact Finset.sum_congr rfl (fun ff hf => Finset.sum_congr rfl (fun yy hy =>
    Finset.sum_congr rfl (fun xx hx => by
      rw [h ff xx yy (Finset.mem_range.mp hf) (Finset.mem_range.mp hx)
        (Finset.mem_range.mp hy)])))

/-- On a uniformly coloured cube an output texel whose accumulated `sum` is positive gets
the colour of the cube. -/
theorem cosinePowerFilter_uniform (cube : SourceCube) (C : Vector3) (size : Nat) (p : ℝ)
    (f x y : Nat) (hN : cube.edgeLength % 2 = 0) (hC : cube.Uniform C)
    (hf : f < 6) (hx : x < size) (hy : y < size)
    (hS : 0 < ∑ ff in Finset.range 6, ∑ yy in Finset.range cube.edgeLength,
      ∑ xx in Finset.range cube.edgeLength,
        texelWeight cube.edgeLength (texelDirection f x y (1 / (size : ℝ))) p ff xx yy) :
    (cosinePowerFilter cube size p).pixel f x y = .ok C := by
  rw [filterTexel_eq cube size p f x y _ hf hx hy (gather_eq cube _ p hN)]
  unfold normalizeColor
  simp only [if_neg hS.ne']
  rw [uniform_channel_sum cube _ 0 C.x (fun ff xx yy a b c => (hC ff xx yy a b c).1),
    uniform_channel_sum cube _ 1 C.y (fun ff xx yy a b c => (hC ff xx yy a b c).2.1),
    uniform_channel_sum cube _ 2 C.z (fun ff xx yy a b c => (hC ff xx yy a b c).2.2)]
  have e : ∀ a S : ℝ, S ≠ 0 → a * S * (1 / S) = a := by
    intro a S hS'
    field_simp
  rw [e _ _ hS.ne', e _ _ hS.ne', e _ _ hS.ne']

theorem dot_normalizeFast (a b : Vector3) :
    dot (normalizeFast a) (normalizeFast b) =
      dot a b * (1 / Real.sqrt (dot a a)) * (1 / Real.sqrt (dot b b)) := by
  simp only [normalizeFast, dot]
  ring

theorem texelDirectionRaw_dot_same_face (f x y xx yy : Nat) (i1 i2 : ℝ) (hf : f < 6) :
    dot (texelDirectionRaw f xx yy i2) (texelDirectionRaw f x y i1) =
      1 + texelCenter xx i2 * texelCenter x i1 + texelCenter yy i2 * texelCenter y i1 := by
  interval_cases f <;> simp [texelDirectionRaw, dot] <;> ring

theorem texelDirectionRaw_dot_self (f x y : Nat) (i1 : ℝ) (hf : f < 6) :
    dot (texelDirectionRaw f x y i1) (texelDirectionRaw f x y i1) =
      1 + texelCenter x i1 * texelCenter x i1 + texelCenter y i1 * texelCenter y i1 :=
  texelDirectionRaw_dot_same_face f x y x y i1 i1 hf

theorem one_div_sqrt_ge_half {t : ℝ} (h0 : 0 < t) (h4 : t ≤ 4) : 1 / 2 ≤ 1 / Real.sqrt t := by
  have hs : 0 < Real.sqrt t := Real.sqrt_pos.mpr h0
  have h2 : Real.sqrt t ≤ 2 := by
    rw [Real.sqrt_le_iff]
    constructor <;> norm_num
    linarith
  exact one_div_le_one_div_of_le hs h2

/-- With exponent 1, two vectors whose scalar product is at least 1 and whose squared
lengths are at most 4 have a `scale` above the threshold after normalisation. -/
theorem lobeScale_one_gt (a b : Vector3) (h1 : 1 ≤ dot a b) (ha : 0 < dot a a)
    (ha4 : dot a a ≤ 4) (hb : 0 < dot b b) (hb4 : dot b b ≤ 4) :
    lobeScale (normalizeFast a) (normalizeFast b) 1 > threshold := by
  unfold lobeScale saturate threshold
  rw [Real.rpow_one, dot_normalizeFast]
  have ka := one_div_sqrt_ge_half ha ha4
  have kb := one_div_sqrt_ge_half hb hb4
  have hd : 1 / 4 ≤ dot a b * (1 / Real.sqrt (dot a a)) * (1 / Real.sqrt (dot b b)) := by
    have h2 : 1 / 2 ≤ dot a b * (1 / Real.sqrt (dot a a)) := by nlinarith
    nlinarith
  have : (1:ℝ) / 4 ≤ min (max (dot a b * (1 / Real.sqrt (dot a a)) *
      (1 / Real.sqrt (dot b b))) 0) 1 := by
    apply le_min
    · exact le_trans hd (le_max_left _ _)
    · norm_num
  linarith

/-! ## The 4x4x6 cube of colour (1,0,0), filtered to 2x2x6 with power 1 -/

theorem redCube_uniform (N : Nat) : (redCube N).Uniform ⟨1, 0, 0⟩ := by
  intro ff xx yy _ _ _
  simp [redCube]

theorem redCube4_texelScale_gt (f x y : Nat) (hf : f < 6) (hx : x < 2) (hy : y < 2) :
    texelScale 4 (texelDirection f x y (1 / ((2 : Nat) : ℝ))) 1 f (x + 1) (y + 1) >
      threshold := by
  unfold texelScale texelDirection
  have hu : texelCenter (x + 1) (1 / ((4 : Nat) : ℝ)) = texelCenter x (1 / ((2 : Nat) : ℝ)) / 2 := by
    unfold texelCenter
    push_cast
    ring
  have hv : texelCenter (y + 1) (1 / ((4 : Nat) : ℝ)) = texelCenter y (1 / ((2 : Nat) : ℝ)) / 2 := by
    unfold texelCenter
    push_cast
    ring
  have hx2 : texelCenter x (1 / ((2 : Nat) : ℝ)) * texelCenter x (1 / ((2 : Nat) : ℝ)) = 1 / 4 := by
    unfold texelCenter
    interval_cases x <;> norm_num
  have hy2 : texelCenter y (1 / ((2 : Nat) : ℝ)) * texelCenter y (1 / ((2 : Nat) : ℝ)) = 1 / 4 := by
    unfold texelCenter
    interval_cases y <;> norm_num
  apply lobeScale_one_gt
  · rw [texelDirectionRaw_dot_same_face f x y (x + 1) (y + 1) _ _ hf, hu, hv]
    nlinarith
  · rw [texelDirectionRaw_dot_self f _ _ _ hf, hu, hv]
    nlinarith
  · rw [texelDirectionRaw_dot_self f _ _ _ hf, hu, hv]
    nlinarith
  · rw [texelDirectionRaw_dot_self f _ _ _ hf]
    nlinarith
  · rw [texelDirectionRaw_dot_self f _ _ _ hf]
    nlinarith

/-- C6: for the cube of edge length 4 whose 96 texels are `(1,0,0)`,
`cosinePowerFilter(2, 1)` returns a cube of edge length 2 in which each of the `2*2*6` texels
is `(1,0,0)`; in particular no texel has a zero weight sum. -/
theorem cosinePowerFilter_redCube4 :
    (cosinePowerFilter (redCube 4) 2 1).edgeLength = 2 ∧
    ∀ f x y, f < 6 → x < 2 → y < 2 →
      (∃ s : GatherState,
        gather (redCube 4) (SolidAngleTable.init 4) (VectorTable.init 4)
          (texelDirection f x y (1 / ((2 : Nat) : ℝ))) 1 = .ok s ∧ 0 < s.sum) ∧
      (cosinePowerFilter (redCube 4) 2 1).pixel f x y = .ok ⟨1, 0, 0⟩ := by
  refine ⟨(cosinePowerFilter_pixel (redCube 4) 2 1 0 0 0 (by decide) (by decide)
    (by decide)).1, fun f x y hf hx hy => ?_⟩
  have hS := weightSum_pos 4 (texelDirection f x y (1 / ((2 : Nat) : ℝ))) 1 (by norm_num)
    f (x + 1) (y + 1) hf (by omega) (by omega) (redCube4_texelScale_gt f x y hf hx hy)
  exact ⟨⟨_, gather_eq (redCube 4) _ 1 rfl, hS⟩,
    cosinePowerFilter_uniform (redCube 4) ⟨1, 0, 0⟩ 2 1 f x y rfl (redCube_uniform 4)
      hf hx hy hS⟩

/-- The statement of C6 at output texel `(5, 1, 0)`. -/
theorem cosinePowerFilter_redCube4_witness :
    (cosinePowerFilter (redCube 4) 2 1).pixel 5 1 0 = .ok ⟨1, 0, 0⟩ :=
  (cosinePowerFilter_redCube4.2 5 1 0 (by decide) (by decide) (by decide)).2

theorem toI32_of_lt (z : Int) (h0 : 0 ≤ z) (h : z < 2 ^ 31) : toI32 z = z := by
  unfold toI32
  omega

/-- The index `mipmap == mipmapCount` passes the range test of line 125. -/
theorem mipmapRejected_count (mipmapCount : Nat) (h : mipmapCount < 2 ^ 31) :
    mipmapRejected mipmapCount (mipmapCount : Int) = false := by
  unfold mipmapRejected
  rw [toI32_of_lt _ (by omega) (by omega)]
  simp

/-- A negative index `-k` is sent to `mipmapCount - 1 + k`, at or above `mipmapCount`. -/
theorem resolveMipmap_neg (mipmapCount k : Nat) (hk : 1 ≤ k) (h : mipmapCount + k ≤ 2 ^ 31) :
    resolveMipmap mipmapCount (-(k : Int)) = (mipmapCount : Int) - 1 + k := by
  unfold resolveMipmap
  rw [if_pos (by omega), toI32_of_lt _ (by omega) (by omega)]
  ring

/-- C7 fails on the code: on a container with one mip level, `load` with the mip index 1
(outside `[0, 1)`) passes the range test, returns true and takes the edge length from level 1. -/
theorem load_accepts_mipmap_equal_count :
    mipmapRejected (sampleCube 4 1).mipmapCount (resolveMipmap (sampleCube 4 1).mipmapCount 1)
      = false ∧
    (CubeSurface.load sampleOps freshCube.2 freshCube.1 ".dds" (sampleCube 4 1) 1).1 = true ∧
    CubeSurface.edgeLength
      (CubeSurface.load sampleOps freshCube.2 freshCube.1 ".dds" (sampleCube 4 1) 1).2
      freshCube.1 = (sampleCube 4 1).surfaceWidth 1 := by
  decide

/-- C8 fails on the code: on a container with three mip levels the indices `-1`, `-2`, `-3`
resolve to the levels 3, 4, 5, none inside `[0, 3)`; with `-1` the load goes on and reads
level 3, with `-2` and `-3` it returns false. -/
theorem load_negative_mipmap_out_of_range :
    resolveMipmap (sampleCube 4 3).mipmapCount (-1) = 3 ∧
    resolveMipmap (sampleCube 4 3).mipmapCount (-2) = 4 ∧
    resolveMipmap (sampleCube 4 3).mipmapCount (-3) = 5 ∧
    (CubeSurface.load sampleOps freshCube.2 freshCube.1 ".dds" (sampleCube 4 3) (-1)).1 = true ∧
    CubeSurface.face
      (CubeSurface.load sampleOps freshCube.2 freshCube.1 ".dds" (sampleCube 4 3) (-1)).2
      freshCube.1 0 = some { width := (sampleCube 4 3).surfaceWidth 3, source := (0, 3),
                             linear := false } ∧
    (CubeSurface.load sampleOps freshCube.2 freshCube.1 ".dds" (sampleCube 4 3) (-2)).1 = false ∧
    (CubeSurface.load sampleOps freshCube.2 freshCube.1 ".dds" (sampleCube 4 3) (-3)).1 = false := by
  decide

/-! ## load: failure leaves the receiver as it was -/

/-- C9: whenever `load` returns false the heap after the call is the heap before it, so the
receiver's `edgeLength` and its six faces are what they were. -/
theorem load_false_unchanged {S D : Type} (ops : SurfaceOps S D) (h : Heap S)
    (self : CubeSurface) (extension : String) (dds : DirectDrawSurface D) (mipmap : Int)
    (hfail : (CubeSurface.load ops h self extension dds mipmap).1 = false) :
    (CubeSurface.load ops h self extension dds mipmap).2 = h ∧
    CubeSurface.edgeLength (CubeSurface.load ops h self extension dds mipmap).2 self =
      CubeSurface.edgeLength h self ∧
    ∀ f, CubeSurface.face (CubeSurface.load ops h self extension dds mipmap).2 self f =
      CubeSurface.face h self f := by
  have key : (CubeSurface.load ops h self extension dds mipmap).2 = h := by
    unfold CubeSurface.load at hfail ⊢
    cases hfmt : selectInputFormat dds with
    | none =>
      simp only [hfmt]
      split_ifs <;> rfl
    | some fmt =>
      simp only [hfmt] at hfail ⊢
      split_ifs at hfail ⊢ <;> rfl
  rw [key]
  exact ⟨rfl, rfl, fun _ => rfl⟩

/-- The statement of C9 at a load with the mip index 5 of a container with 3 levels, which
is rejected, on a receiver that holds a cube of edge length 4. -/
theorem load_false_unchanged_witness :
    (CubeSurface.load sampleOps sharedPair.2.2 sharedPair.1 ".dds" (sampleCube 8 3) 5).1 = false ∧
    ((CubeSurface.load sampleOps sharedPair.2.2 sharedPair.1 ".dds" (sampleCube 8 3) 5).2 =
      sharedPair.2.2 ∧
    CubeSurface.edgeLength
      (CubeSurface.load sampleOps sharedPair.2.2 sharedPair.1 ".dds" (sampleCube 8 3) 5).2
      sharedPair.1 = CubeSurface.edgeLength sharedPair.2.2 sharedPair.1 ∧
    ∀ f, CubeSurface.face
      (CubeSurface.load sampleOps sharedPair.2.2 sharedPair.1 ".dds" (sampleCube 8 3) 5).2
      sharedPair.1 f = CubeSurface.face sharedPair.2.2 sharedPair.1 f) :=
  ⟨by decide, load_false_unchanged sampleOps sharedPair.2.2 sharedPair.1 ".dds"
    (sampleCube 8 3) 5 (by decide)⟩

/-! ## Handles that share a representation -/

/-- C10 fails on the code: `a` and `b` share one representation (count 2) of edge length 4.
A successful `b.load` of a container of width 8 changes the edge length and the faces seen
through `a`, and an assignment through `b.face(0)` changes `a.face(0)`: neither path
detaches. -/
theorem shared_handle_sees_load_and_face_write :
    sharedPair.1.m = sharedPair.2.1.m ∧
    Heap.refCount sharedPair.2.2 sharedPair.1.m = 2 ∧
    CubeSurface.edgeLength sharedPair.2.2 sharedPair.1 = 4 ∧
    CubeSurface.face sharedPair.2.2 sharedPair.1 0 =
      some { width := 4, source := (0, 0), linear := false } ∧
    (CubeSurface.load sampleOps sharedPair.2.2 sharedPair.2.1 ".dds" (sampleCube 8 1) 0).1
      = true ∧
    CubeSurface.edgeLength
      (CubeSurface.load sampleOps sharedPair.2.2 sharedPair.2.1 ".dds" (sampleCube 8 1) 0).2
      sharedPair.1 = 8 ∧
    CubeSurface.face
      (CubeSurface.load sampleOps sharedPair.2.2 sharedPair.2.1 ".dds" (sampleCube 8 1) 0).2
      sharedPair.1 0 = some { width := 8, source := (0, 0), linear := false } ∧
    CubeSurface.face
      (CubeSurface.setFace sharedPair.2.2 sharedPair.2.1 0
        { width := 1, source := (5, 5), linear := true })
      sharedPair.1 0 = some { width := 1, source := (5, 5), linear := true } := by
  decide

/-! ## Detaching a shared representation -/

theorem Heap.modify_cell_ne {S : Type} (h : Heap S) (a b : Nat) (g : Private S → Private S)
    (hne : b ≠ a) : (h.modify a g).cell b = h.cell b := by
  simp [Heap.modify, hne]

theorem Heap.modify_cell_eq {S : Type} (h : Heap S) (a : Nat) (g : Private S → Private S) :
    (h.modify a g).cell a = (h.cell a).map g := by
  simp [Heap.modify]

/-- A loop of stores into the object at address `a` leaves every other object as it was. -/
theorem forLoop_modify_cell_ne {S : Type} (n a b : Nat) (g : Nat → Private S → Private S)
    (h : Heap S) (hne : b ≠ a) :
    (forLoop n (fun i h => h.modify a (g i)) h).cell b = h.cell b := by
  induction n with
  | zero => rw [forLoop_zero]
  | succ n ih => rw [forLoop_succ, Heap.modify_cell_ne _ _ _ _ hne, ih]

/-- A loop of stores into the object at address `a` that keep its count keeps the count. -/
theorem forLoop_modify_refCount {S : Type} (n a : Nat) (g : Nat → Private S → Private S)
    (h : Heap S) (hg : ∀ i p, (g i p).refCount = p.refCount) :
    Heap.refCount (forLoop n (fun i h => h.modify a (g i)) h) a = Heap.refCount h a := by
  induction n with
  | zero => rw [forLoop_zero]
  | succ n ih =>
    rw [forLoop_succ, ← ih]
    unfold Heap.refCount
    rw [Heap.modify_cell_eq]
    cases (forLoop n (fun i h => h.modify a (g i)) h).cell a with
    | none => rfl
    | some p => simp [hg]

theorem Heap.release_of_shared {S : Type} (h : Heap S) (a : Nat) (p : Private S)
    (hc : h.cell a = some p) (hnz : p.refCount - 1 ≠ 0) :
    h.release a = h.modify a (fun p => { p with refCount := p.refCount - 1 }) := by
  unfold Heap.release
  simp only [hc, if_neg hnz]

/-- The handle and heap after `detach()` on a copy `B` of a handle `A` whose representation
`p` is live with count at least 1: `A`'s object keeps its contents and gets back the count
`p.refCount`, `B` points to a clone at the fresh address with count 1. -/
theorem detach_copy {S : Type} (h : Heap S) (A : CubeSurface) (p : Private S)
    (hwf : h.WellFormed) (hA : h.cell A.m = some p) (hrc : 1 ≤ p.refCount) :
    (CubeSurface.detach (CubeSurface.copy h A).2 (CubeSurface.copy h A).1).1.m = h.next ∧
    h.next ≠ A.m ∧
    (CubeSurface.detach (CubeSurface.copy h A).2 (CubeSurface.copy h A).1).2.cell A.m =
      some p ∧
    (CubeSurface.detach (CubeSurface.copy h A).2 (CubeSurface.copy h A).1).2.cell h.next =
      some { refCount := 1, edgeLength := p.edgeLength, face := p.face } ∧
    (CubeSurface.detach (CubeSurface.copy h A).2 (CubeSurface.copy h A).1).2.next =
      h.next + 1 := by
  have hlt : h.next ≠ A.m := by
    intro e
    have := hwf A.m (by omega)
    rw [hA] at this
    cases this
  have h1 : (h.addRef A.m).cell A.m = some { p with refCount := p.refCount + 1 } := by
    unfold Heap.addRef
    rw [Heap.modify_cell_eq, hA]
    rfl
  have hgt : Heap.refCount (h.addRef A.m) A.m > 1 := by
    unfold Heap.refCount
    rw [h1]
    show p.refCount + 1 > 1
    omega
  have hrel : (h.addRef A.m).release A.m =
      (h.addRef A.m).modify A.m (fun p => { p with refCount := p.refCount - 1 }) :=
    Heap.release_of_shared _ _ _ h1 (by show p.refCount + 1 - 1 ≠ 0; omega)
  have hcell : ((h.addRef A.m).release A.m).cell A.m = some p := by
    rw [hrel, Heap.modify_cell_eq, h1]
    rfl
  have hnext : ((h.addRef A.m).release A.m).next = h.next := by
    rw [hrel]
    rfl
  unfold CubeSurface.detach CubeSurface.copy
  simp only [if_pos hgt, hcell]
  generalize (h.addRef A.m).release A.m = g at hcell hnext
  refine ⟨?_, hlt, ?_, ?_, ?_⟩
  · exact hnext
  · unfold Heap.addRef
    rw [Heap.modify_cell_ne _ _ _ _ (by rw [Heap.alloc, hnext]; exact hlt.symm)]
    simp only [Heap.alloc, hnext, if_neg hlt.symm, hcell]
  · unfold Heap.addRef
    rw [← hnext]
    show (((g.alloc p.clone).2).modify g.next _).cell g.next = _
    rw [Heap.modify_cell_eq]
    simp [Heap.alloc, Private.clone]
  · rw [← hnext]
    rfl

/-- Frame of a face-by-face mutation that follows `detach()` on a copy: the original's object
is untouched, the copy's handle points elsewhere, and its object has count 1. -/
theorem mutate_after_detach_copy {S : Type} (h : Heap S) (A : CubeSurface) (p : Private S)
    (F : S → S) (hwf : h.WellFormed) (hA : h.cell A.m = some p) (hrc : 1 ≤ p.refCount) :
    (forLoop 6 (fun i g =>
        g.modify (CubeSurface.detach (CubeSurface.copy h A).2 (CubeSurface.copy h A).1).1.m
          (fun q => q.setFace i (F (q.face i))))
      (CubeSurface.detach (CubeSurface.copy h A).2 (CubeSurface.copy h A).1).2).cell A.m
      = some p ∧
    (CubeSurface.detach (CubeSurface.copy h A).2 (CubeSurface.copy h A).1).1.m ≠ A.m ∧
    Heap.refCount (forLoop 6 (fun i g =>
        g.modify (CubeSurface.detach (CubeSurface.copy h A).2 (CubeSurface.copy h A).1).1.m
          (fun q => q.setFace i (F (q.face i))))
      (CubeSurface.detach (CubeSurface.copy h A).2 (CubeSurface.copy h A).1).2)
      (CubeSurface.detach (CubeSurface.copy h A).2 (CubeSurface.copy h A).1).1.m = 1 := by
  obtain ⟨hm, hlt, hcA, hcB, _⟩ := detach_copy h A p hwf hA hrc
  rw [hm]
  refine ⟨?_, hlt, ?_⟩
  · rw [forLoop_modify_cell_ne 6 h.next A.m _ _ hlt.symm, hcA]
  · rw [forLoop_modify_refCount 6 h.next (fun i q => q.setFace i (F (q.face i))) _
      (fun i q => rfl)]
    unfold Heap.refCount
    rw [hcB]

theorem copy_refCount {S : Type} (h : Heap S) (A : CubeSurface) (p : Private S)
    (hA : h.cell A.m = some p) :
    Heap.refCount (CubeSurface.copy h A).2 A.m = p.refCount + 1 ∧
    (CubeSurface.copy h A).1.m = A.m ∧
    CubeSurface.isNull (CubeSurface.copy h A).2 (CubeSurface.copy h A).1 =
      (p.edgeLength == 0) := by
  have h1 : (h.addRef A.m).cell A.m = some { p with refCount := p.refCount + 1 } := by
    unfold Heap.addRef
    rw [Heap.modify_cell_eq, hA]
    rfl
  refine ⟨?_, rfl, ?_⟩
  · unfold Heap.refCount CubeSurface.copy
    rw [h1]
  · unfold CubeSurface.isNull CubeSurface.edgeLength CubeSurface.copy
    simp only [h1]

/-! ## The allocator invariant -/

theorem forLoop_invariant {σ : Type} (P : σ → Prop) (n : Nat) (body : Nat → σ → σ) (s : σ)
    (hbody : ∀ i s, P s → P (body i s)) (hs : P s) : P (forLoop n body s) := by
  induction n with
  | zero => rwa [forLoop_zero]
  | succ n ih =>
    rw [forLoop_succ]
    exact hbody n _ ih

theorem Heap.wellFormed_empty {S : Type} : (Heap.empty : Heap S).WellFormed :=
  fun _ _ => rfl

theorem Heap.wellFormed_modify {S : Type} (h : Heap S) (a : Nat) (g : Private S → Private S)
    (hwf : h.WellFormed) : (h.modify a g).WellFormed := by
  intro b hb
  have hb' : h.next ≤ b := hb
  by_cases e : b = a
  · subst e
    rw [Heap.modify_cell_eq, hwf b hb']
    rfl
  · rw [Heap.modify_cell_ne _ _ _ _ e]
    exact hwf b hb'

theorem Heap.wellFormed_alloc {S : Type} (h : Heap S) (q : Private S) (hwf : h.WellFormed) :
    (h.alloc q).2.WellFormed := by
  intro b hb
  have hb' : h.next + 1 ≤ b := hb
  have e : b ≠ h.next := by omega
  simp only [Heap.alloc, if_neg e]
  exact hwf b (by omega)

theorem CubeSurface.wellFormed_new {S : Type} (dflt : S) (h : Heap S) (hwf : h.WellFormed) :
    (CubeSurface.new dflt h).2.WellFormed :=
  Heap.wellFormed_modify _ _ _ (Heap.wellFormed_alloc h _ hwf)

theorem CubeSurface.wellFormed_load {S D : Type} (ops : SurfaceOps S D) (h : Heap S)
    (self : CubeSurface) (extension : String) (dds : DirectDrawSurface D) (mipmap : Int)
    (hwf : h.WellFormed) : (CubeSurface.load ops h self extension dds mipmap).2.WellFormed := by
  unfold CubeSurface.load
  cases hfmt : selectInputFormat dds with
  | none =>
    simp only
    split_ifs <;> exact hwf
  | some fmt =>
    simp only
    split_ifs
    · exact hwf
    · exact hwf
    · exact hwf
    · exact hwf
    · exact Heap.wellFormed_modify _ _ _
        (forLoop_invariant Heap.WellFormed 6 _ h
          (fun i g hg => Heap.wellFormed_modify g _ _ hg) hwf)
    · exact hwf

theorem loadedCube_wellFormed : loadedCube.2.WellFormed :=
  CubeSurface.wellFormed_load _ _ _ _ _ _
    (CubeSurface.wellFormed_new _ _ Heap.wellFormed_empty)

/-- C11: for a live non-empty cube `A` (representation `p`, count at least 1) on a well-formed
heap and a copy `B` of `A`, `B.toLinear(gamma)` and `B.toGamma(gamma)` leave the edge length
and the faces seen through `A` unchanged; afterwards `B` points to a representation other
than `A`'s, that representation has count 1, and the count of `A`'s representation is one
less than it was while `B` shared it. -/
theorem toLinear_toGamma_on_copy {S D : Type} (ops : SurfaceOps S D) (h : Heap S)
    (A : CubeSurface) (gamma : ℝ) (p : Private S) (hwf : h.WellFormed)
    (hA : h.cell A.m = some p) (hne : p.edgeLength ≠ 0) (hrc : 1 ≤ p.refCount) :
    (CubeSurface.edgeLength
        (CubeSurface.toLinear ops (CubeSurface.copy h A).2 (CubeSurface.copy h A).1 gamma).2 A
      = CubeSurface.edgeLength h A ∧
     (∀ f, CubeSurface.face
        (CubeSurface.toLinear ops (CubeSurface.copy h A).2 (CubeSurface.copy h A).1 gamma).2 A f
      = CubeSurface.face h A f) ∧
     (CubeSurface.toLinear ops (CubeSurface.copy h A).2 (CubeSurface.copy h A).1 gamma).1.m
      ≠ A.m ∧
     Heap.refCount
        (CubeSurface.toLinear ops (CubeSurface.copy h A).2 (CubeSurface.copy h A).1 gamma).2
        (CubeSurface.toLinear ops (CubeSurface.copy h A).2 (CubeSurface.copy h A).1 gamma).1.m
      = 1 ∧
     Heap.refCount
        (CubeSurface.toLinear ops (CubeSurface.copy h A).2 (CubeSurface.copy h A).1 gamma).2
        A.m + 1 = Heap.refCount (CubeSurface.copy h A).2 A.m) ∧
    (CubeSurface.edgeLength
        (CubeSurface.toGamma ops (CubeSurface.copy h A).2 (CubeSurface.copy h A).1 gamma).2 A
      = CubeSurface.edgeLength h A ∧
     (∀ f, CubeSurface.face
        (CubeSurface.toGamma ops (CubeSurface.copy h A).2 (CubeSurface.copy h A).1 gamma).2 A f
      = CubeSurface.face h A f) ∧
     (CubeSurface.toGamma ops (CubeSurface.copy h A).2 (CubeSurface.copy h A).1 gamma).1.m
      ≠ A.m ∧
     Heap.refCount
        (CubeSurface.toGamma ops (CubeSurface.copy h A).2 (CubeSurface.copy h A).1 gamma).2
        (CubeSurface.toGamma ops (CubeSurface.copy h A).2 (CubeSurface.copy h A).1 gamma).1.m
      = 1 ∧
     Heap.refCount
        (CubeSurface.toGamma ops (CubeSurface.copy h A).2 (CubeSurface.copy h A).1 gamma).2
        A.m + 1 = Heap.refCount (CubeSurface.copy h A).2 A.m) := by
  obtain ⟨hcnt, _, hnull⟩ := copy_refCount h A p hA
  have hnn : CubeSurface.isNull (CubeSurface.copy h A).2 (CubeSurface.copy h A).1 = false := by
    rw [hnull]
    simpa using hne
  constructor
  · obtain ⟨hcell, hmne, hone⟩ :=
      mutate_after_detach_copy h A p (ops.toLinear gamma) hwf hA hrc
    unfold CubeSurface.toLinear
    simp only [hnn, Bool.false_eq_true, if_false]
    refine ⟨?_, ?_, hmne, hone, ?_⟩
    · unfold CubeSurface.edgeLength
      rw [hcell, hA]
    · intro f
      unfold CubeSurface.face
      rw [hcell, hA]
    · rw [hcnt]
      unfold Heap.refCount
      rw [hcell]
  · obtain ⟨hcell, hmne, hone⟩ :=
      mutate_after_detach_copy h A p (ops.toGamma gamma) hwf hA hrc
    unfold CubeSurface.toGamma
    simp only [hnn, Bool.false_eq_true, if_false]
    refine ⟨?_, ?_, hmne, hone, ?_⟩
    · unfold CubeSurface.edgeLength
      rw [hcell, hA]
    · intro f
      unfold CubeSurface.face
      rw [hcell, hA]
    · rw [hcnt]
      unfold Heap.refCount
      rw [hcell]

/-- The statement of C11 at the handle `loadedCube`, which holds a cube of edge length 4 with
count 1. -/
theorem toLinear_toGamma_on_copy_witness :
    loadedCube.2.WellFormed ∧
    loadedCube.2.cell loadedCube.1.m = some loadedPrivate ∧
    loadedPrivate.edgeLength ≠ 0 ∧ 1 ≤ loadedPrivate.refCount ∧
    CubeSurface.edgeLength
        (CubeSurface.toLinear sampleOps (CubeSurface.copy loadedCube.2 loadedCube.1).2
          (CubeSurface.copy loadedCube.2 loadedCube.1).1 2).2 loadedCube.1
      = CubeSurface.edgeLength loadedCube.2 loadedCube.1 ∧
    (CubeSurface.toLinear sampleOps (CubeSurface.copy loadedCube.2 loadedCube.1).2
      (CubeSurface.copy loadedCube.2 loadedCube.1).1 2).1.m ≠ loadedCube.1.m :=
  ⟨loadedCube_wellFormed, rfl, by decide, by decide,
    (toLinear_toGamma_on_copy sampleOps loadedCube.2 loadedCube.1 2 loadedPrivate
      loadedCube_wellFormed rfl (by decide) (by decide)).1.1,
    (toLinear_toGamma_on_copy sampleOps loadedCube.2 loadedCube.1 2 loadedPrivate
      loadedCube_wellFormed rfl (by decide) (by decide)).1.2.2.1⟩

/-! ## Symmetry, range and sign of the solid angle table -/

theorem SolidAngleTable.foldCoord_reflect (N x : Nat) (hN : N % 2 = 0) (hx : x < N) :
    SolidAngleTable.foldCoord (N / 2) (N - 1 - x) = SolidAngleTable.foldCoord (N / 2) x := by
  unfold SolidAngleTable.foldCoord
  split_ifs <;> omega

theorem SolidAngleTable.lookupIndex_init_lt (N x y : Nat) (hN : N % 2 = 0) (hx : x < N)
    (hy : y < N) :
    (SolidAngleTable.init N).lookupIndex x y < (N / 2) * (N / 2) := by
  have hx' := SolidAngleTable.foldCoord_lt N x hN hx
  have hy' := SolidAngleTable.foldCoord_lt N y hN hy
  unfold SolidAngleTable.lookupIndex
  rw [SolidAngleTable.init_size]
  calc SolidAngleTable.foldCoord (N / 2) y * (N / 2) + SolidAngleTable.foldCoord (N / 2) x
      < SolidAngleTable.foldCoord (N / 2) y * (N / 2) + N / 2 := by omega
    _ = (SolidAngleTable.foldCoord (N / 2) y + 1) * (N / 2) := by ring
    _ ≤ (N / 2) * (N / 2) := Nat.mul_le_mul_right _ hy'

/-- C12: for an even edge length `N` and `x, y < N`, `lookup` takes the same value at
`(x, y)`, `(N-1-x, y)`, `(x, N-1-y)` and `(N-1-x, N-1-y)`, and that value is defined; the
fold sends `v < N/2` to `N/2 - v - 1` and `v ≥ N/2` to `v - N/2`. -/
theorem SolidAngleTable.lookup_reflect (N x y : Nat) (hN : N % 2 = 0)
    (hx : x < N) (hy : y < N) :
    (∃ a : ℝ, (SolidAngleTable.init N).lookup x y = some a) ∧
    (SolidAngleTable.init N).lookup x y = (SolidAngleTable.init N).lookup (N - 1 - x) y ∧
    (SolidAngleTable.init N).lookup x y = (SolidAngleTable.init N).lookup x (N - 1 - y) ∧
    (SolidAngleTable.init N).lookup x y =
      (SolidAngleTable.init N).lookup (N - 1 - x) (N - 1 - y) ∧
    (∀ v, v < N / 2 → SolidAngleTable.foldCoord (N / 2) v = N / 2 - v - 1) ∧
    (∀ v, N / 2 ≤ v → SolidAngleTable.foldCoord (N / 2) v = v - N / 2) := by
  have ex := SolidAngleTable.foldCoord_reflect N x hN hx
  have ey := SolidAngleTable.foldCoord_reflect N y hN hy
  refine ⟨⟨_, SolidAngleTable.lookup_init N x y hN hx hy⟩, ?_, ?_, ?_, ?_, ?_⟩
  · simp only [SolidAngleTable.lookup, SolidAngleTable.lookupIndex, SolidAngleTable.init_size, ex]
  · simp only [SolidAngleTable.lookup, SolidAngleTable.lookupIndex, SolidAngleTable.init_size, ey]
  · simp only [SolidAngleTable.lookup, SolidAngleTable.lookupIndex, SolidAngleTable.init_size,
      ex, ey]
  · intro v hv
    unfold SolidAngleTable.foldCoord
    split_ifs <;> omega
  · intro v hv
    unfold SolidAngleTable.foldCoord
    rw [if_pos hv]

/-- The statement of C12 at edge length 4, texel `(0, 3)`. -/
theorem SolidAngleTable.lookup_reflect_witness :
    4 % 2 = 0 ∧ 0 < 4 ∧ 3 < 4 ∧
    (SolidAngleTable.init 4).lookup 0 3 = (SolidAngleTable.init 4).lookup (4 - 1 - 0) 3 ∧
    (SolidAngleTable.init 4).lookup 0 3 = (SolidAngleTable.init 4).lookup 0 (4 - 1 - 3) :=
  ⟨by decide, by decide, by decide,
    (SolidAngleTable.lookup_reflect 4 0 3 (by decide) (by decide) (by decide)).2.1,
    (SolidAngleTable.lookup_reflect 4 0 3 (by decide) (by decide) (by decide)).2.2.1⟩

/-- C13: for an even edge length `N` and `x, y < N` (so `N` is positive), the index
`y' * size + x'` that `lookup(x, y)` reads is below `size * size`, the length of the table,
so the lookup returns a table entry. -/
theorem SolidAngleTable.lookup_in_range (N x y : Nat) (hN : N % 2 = 0)
    (hx : x < N) (hy : y < N) :
    (SolidAngleTable.init N).size = N / 2 ∧
    (SolidAngleTable.init N).lookupIndex x y <
      (SolidAngleTable.init N).size * (SolidAngleTable.init N).size ∧
    (SolidAngleTable.init N).data.length =
      (SolidAngleTable.init N).size * (SolidAngleTable.init N).size ∧
    ∃ a : ℝ, (SolidAngleTable.init N).lookup x y = some a := by
  refine ⟨rfl, ?_, ?_, ⟨_, SolidAngleTable.lookup_init N x y hN hx hy⟩⟩
  · rw [SolidAngleTable.init_size]
    exact SolidAngleTable.lookupIndex_init_lt N x y hN hx hy
  · rw [SolidAngleTable.init_size]
    exact SolidAngleTable.init_data_length N

/-- The statement of C13 at edge length 6, texel `(5, 2)`. -/
theorem SolidAngleTable.lookup_in_range_witness :
    6 % 2 = 0 ∧ 5 < 6 ∧ 2 < 6 ∧
    (SolidAngleTable.init 6).lookupIndex 5 2 <
      (SolidAngleTable.init 6).size * (SolidAngleTable.init 6).size ∧
    ∃ a : ℝ, (SolidAngleTable.init 6).lookup 5 2 = some a :=
  ⟨by decide, by decide, by decide,
    (SolidAngleTable.lookup_in_range 6 5 2 (by decide) (by decide) (by decide)).2.1,
    (SolidAngleTable.lookup_in_range 6 5 2 (by decide) (by decide) (by decide)).2.2.2⟩

theorem texelCenter_eq (N x : Nat) (hN0 : 0 < N) :
    texelCenter x (1 / (N : ℝ)) = (2 * (x : ℝ) + 1) / (N : ℝ) - 1 := by
  have hN : (N : ℝ) ≠ 0 := by exact_mod_cast hN0.ne'
  unfold texelCenter
  field_simp
  ring

theorem texelCenter_gt (N x : Nat) (hN0 : 0 < N) : -1 < texelCenter x (1 / (N : ℝ)) := by
  have hN : (0 : ℝ) < (N : ℝ) := by exact_mod_cast hN0
  rw [texelCenter_eq N x hN0]
  have : 0 < (2 * (x : ℝ) + 1) / (N : ℝ) := by positivity
  linarith

theorem texelCenter_lt (N x : Nat) (hx : x < N) : texelCenter x (1 / (N : ℝ)) < 1 := by
  have hN : (0 : ℝ) < (N : ℝ) := by exact_mod_cast (by omega : 0 < N)
  rw [texelCenter_eq N x (by omega)]
  have h1 : (x : ℝ) + 1 ≤ (N : ℝ) := by exact_mod_cast hx
  have : (2 * (x : ℝ) + 1) / (N : ℝ) < 2 := by
    rw [div_lt_iff₀ hN]
    linarith
  linarith

/-- C18: for `N > 0`, `f < 6` and `x, y < N`, with `u = (2x+1)/N - 1` and
`v = (2y+1)/N - 1`, both strictly between -1 and 1, the vector that `texelDirection`
normalises is `(1,-v,-u)`, `(-1,-v,u)`, `(u,1,v)`, `(u,-1,-v)`, `(u,-v,1)`, `(-u,-v,-1)` for
the faces 0 to 5: the component on the face's axis (X, X, Y, Y, Z, Z) is +1 for the faces
0, 2, 4 and -1 for 1, 3, 5, and the two others are as the claim lists them. -/
theorem texelDirectionRaw_components (N f x y : Nat) (hN0 : 0 < N) (hf : f < 6) (hx : x < N)
    (hy : y < N) :
    texelCenter x (1 / (N : ℝ)) = (2 * (x : ℝ) + 1) / (N : ℝ) - 1 ∧
    texelCenter y (1 / (N : ℝ)) = (2 * (y : ℝ) + 1) / (N : ℝ) - 1 ∧
    (-1 < texelCenter x (1 / (N : ℝ)) ∧ texelCenter x (1 / (N : ℝ)) < 1) ∧
    (-1 < texelCenter y (1 / (N : ℝ)) ∧ texelCenter y (1 / (N : ℝ)) < 1) ∧
    texelDirection f x y (1 / (N : ℝ)) =
      normalizeFast (texelDirectionRaw f x y (1 / (N : ℝ))) ∧
    (f = 0 → texelDirectionRaw f x y (1 / (N : ℝ)) =
      ⟨1, -texelCenter y (1 / (N : ℝ)), -texelCenter x (1 / (N : ℝ))⟩) ∧
    (f = 1 → texelDirectionRaw f x y (1 / (N : ℝ)) =
      ⟨-1, -texelCenter y (1 / (N : ℝ)), texelCenter x (1 / (N : ℝ))⟩) ∧
    (f = 2 → texelDirectionRaw f x y (1 / (N : ℝ)) =
      ⟨texelCenter x (1 / (N : ℝ)), 1, texelCenter y (1 / (N : ℝ))⟩) ∧
    (f = 3 → texelDirectionRaw f x y (1 / (N : ℝ)) =
      ⟨texelCenter x (1 / (N : ℝ)), -1, -texelCenter y (1 / (N : ℝ))⟩) ∧
    (f = 4 → texelDirectionRaw f x y (1 / (N : ℝ)) =
      ⟨texelCenter x (1 / (N : ℝ)), -texelCenter y (1 / (N : ℝ)), 1⟩) ∧
    (f = 5 → texelDirectionRaw f x y (1 / (N : ℝ)) =
      ⟨-texelCenter x (1 / (N : ℝ)), -texelCenter y (1 / (N : ℝ)), -1⟩) := by
  refine ⟨texelCenter_eq N x hN0, texelCenter_eq N y hN0,
    ⟨texelCenter_gt N x hN0, texelCenter_lt N x hx⟩,
    ⟨texelCenter_gt N y hN0, texelCenter_lt N y hy⟩, rfl, ?_, ?_, ?_, ?_, ?_, ?_⟩ <;>
  · intro e
    subst e
    simp [texelDirectionRaw]

/-- The statement of C18 at edge length 4, face 3, texel `(0, 3)`. -/
theorem texelDirectionRaw_components_witness :
    0 < 4 ∧ 3 < 6 ∧ 0 < 4 ∧ 3 < 4 ∧
    (-1 < texelCenter 0 (1 / ((4 : Nat) : ℝ)) ∧ texelCenter 0 (1 / ((4 : Nat) : ℝ)) < 1) ∧
    (3 = 3 → texelDirectionRaw 3 0 3 (1 / ((4 : Nat) : ℝ)) =
      ⟨texelCenter 0 (1 / ((4 : Nat) : ℝ)), -1, -texelCenter 3 (1 / ((4 : Nat) : ℝ))⟩) :=
  ⟨by decide, by decide, by decide, by decide,
    (texelDirectionRaw_components 4 3 0 3 (by decide) (by decide) (by decide)
      (by decide)).2.2.1,
    (texelDirectionRaw_components 4 3 0 3 (by decide) (by decide) (by decide)
      (by decide)).2.2.2.2.2.2.2.2.1⟩

/-! ## The vector table as a cache of directions -/

theorem texelCenter_inj (N x x' : Nat) (hN0 : 0 < N)
    (h : texelCenter x (1 / (N : ℝ)) = texelCenter x' (1 / (N : ℝ))) : x = x' := by
  have hN : (0 : ℝ) < (N : ℝ) := by exact_mod_cast hN0
  rw [texelCenter_eq N x hN0, texelCenter_eq N x' hN0] at h
  have h2 : (2 * (x : ℝ) + 1) / (N : ℝ) = (2 * (x' : ℝ) + 1) / (N : ℝ) := by linarith
  rw [div_left_inj' hN.ne'] at h2
  have h3 : (x : ℝ) = (x' : ℝ) := by linarith
  exact_mod_cast h3

/-- The vectors before normalisation of two valid texels are equal only for the same
texel. -/
theorem texelDirectionRaw_inj (N f x y f' x' y' : Nat) (hN0 : 0 < N) (hf : f < 6)
    (hx : x < N) (hy : y < N) (hf' : f' < 6) (hx' : x' < N) (hy' : y' < N)
    (h : texelDirectionRaw f x y (1 / (N : ℝ)) = texelDirectionRaw f' x' y' (1 / (N : ℝ))) :
    f = f' ∧ x = x' ∧ y = y' := by
  have ux := texelCenter_gt N x hN0
  have ux1 := texelCenter_lt N x hx
  have uy := texelCenter_gt N y hN0
  have uy1 := texelCenter_lt N y hy
  have ux' := texelCenter_gt N x' hN0
  have ux1' := texelCenter_lt N x' hx'
  have uy' := texelCenter_gt N y' hN0
  have uy1' := texelCenter_lt N y' hy'
  have hX := congrArg Vector3.x h
  have hY := congrArg Vector3.y h
  have hZ := congrArg Vector3.z h
  have key : f = f' ∧ texelCenter x (1 / (N : ℝ)) = texelCenter x' (1 / (N : ℝ)) ∧
      texelCenter y (1 / (N : ℝ)) = texelCenter y' (1 / (N : ℝ)) := by
    interval_cases f <;> interval_cases f' <;>
      simp [texelDirectionRaw, -one_div] at hX hY hZ <;>
      first
        | exact ⟨rfl, by linarith, by linarith⟩
        | (exfalso; linarith)
  exact ⟨key.1, texelCenter_inj N x x' hN0 key.2.1, texelCenter_inj N y y' hN0 key.2.2⟩

theorem texelDirectionRaw_dot_self_pos (N f x y : Nat) (hf : f < 6) :
    0 < dot (texelDirectionRaw f x y (1 / (N : ℝ))) (texelDirectionRaw f x y (1 / (N : ℝ))) := by
  rw [texelDirectionRaw_dot_self f x y _ hf]
  nlinarith [mul_self_nonneg (texelCenter x (1 / (N : ℝ))),
    mul_self_nonneg (texelCenter y (1 / (N : ℝ)))]

theorem dot_normalizeFast_self (a : Vector3) (ha : 0 < dot a a) :
    dot (normalizeFast a) (normalizeFast a) = 1 := by
  rw [dot_normalizeFast]
  have hs : 0 < Real.sqrt (dot a a) := Real.sqrt_pos.mpr ha
  have hss : Real.sqrt (dot a a) * Real.sqrt (dot a a) = dot a a := Real.mul_self_sqrt ha.le
  field_simp

/-- Two vectors of length 1 whose scalar product is at least 1 are equal. -/
theorem eq_of_unit_of_dot_ge_one (a b : Vector3) (ha : dot a a = 1) (hb : dot b b = 1)
    (h : 1 ≤ dot a b) : a = b := by
  have hsum : (a.x - b.x) * (a.x - b.x) + (a.y - b.y) * (a.y - b.y) +
      (a.z - b.z) * (a.z - b.z) ≤ 0 := by
    unfold dot at ha hb h
    nlinarith
  have hx : a.x - b.x = 0 := by
    nlinarith [mul_self_nonneg (a.x - b.x), mul_self_nonneg (a.y - b.y),
      mul_self_nonneg (a.z - b.z)]
  have hy : a.y - b.y = 0 := by
    nlinarith [mul_self_nonneg (a.x - b.x), mul_self_nonneg (a.y - b.y),
      mul_self_nonneg (a.z - b.z)]
  have hz : a.z - b.z = 0 := by
    nlinarith [mul_self_nonneg (a.x - b.x), mul_self_nonneg (a.y - b.y),
      mul_self_nonneg (a.z - b.z)]
  cases a
  cases b
  simp only [Vector3.mk.injEq]
  simp only at hx hy hz
  exact ⟨by linarith, by linarith, by linarith⟩

theorem dot_self_pos_of_onCube (a : Vector3) (ha : OnCubeSurface a) : 0 < dot a a := by
  obtain ⟨_, _, _, h1⟩ := ha
  unfold dot
  have hx := mul_self_nonneg a.x
  have hy := mul_self_nonneg a.y
  have hz := mul_self_nonneg a.z
  have sq : ∀ t : ℝ, |t| = 1 → t * t = 1 := by
    intro t ht
    have := abs_mul_abs_self t
    rw [ht] at this
    linarith
  rcases h1 with h | h | h
  · have := sq _ h
    linarith
  · have := sq _ h
    linarith
  · have := sq _ h
    linarith

theorem scale_le_of_onCube (a b : Vector3) (sa sb : ℝ) (ha : OnCubeSurface a)
    (hb : OnCubeSurface b) (hsa : 0 < sa) (hsb : 0 < sb) (hx : a.x * sa = b.x * sb)
    (hy : a.y * sa = b.y * sb) (hz : a.z * sa = b.z * sb) : sa ≤ sb := by
  obtain ⟨_, _, _, h1⟩ := ha
  obtain ⟨bx, by1, bz, _⟩ := hb
  have step : ∀ s t : ℝ, |s| = 1 → |t| ≤ 1 → s * sa = t * sb → sa ≤ sb := by
    intro s t hs ht e
    have e' := congrArg abs e
    rw [abs_mul, abs_mul, hs, abs_of_pos hsa, abs_of_pos hsb, one_mul] at e'
    rw [e']
    calc |t| * sb ≤ 1 * sb := mul_le_mul_of_nonneg_right ht hsb.le
      _ = sb := one_mul sb
  rcases h1 with h | h | h
  · exact step _ _ h bx hx
  · exact step _ _ h by1 hy
  · exact step _ _ h bz hz

/-- Two points of the cube surface with the same normalised vector are equal. -/
theorem normalizeFast_inj_on_cube (a b : Vector3) (ha : OnCubeSurface a) (hb : OnCubeSurface b)
    (h : normalizeFast a = normalizeFast b) : a = b := by
  have hsa : 0 < 1 / Real.sqrt (dot a a) :=
    one_div_pos.mpr (Real.sqrt_pos.mpr (dot_self_pos_of_onCube a ha))
  have hsb : 0 < 1 / Real.sqrt (dot b b) :=
    one_div_pos.mpr (Real.sqrt_pos.mpr (dot_self_pos_of_onCube b hb))
  have hX : a.x * (1 / Real.sqrt (dot a a)) = b.x * (1 / Real.sqrt (dot b b)) :=
    congrArg Vector3.x h
  have hY : a.y * (1 / Real.sqrt (dot a a)) = b.y * (1 / Real.sqrt (dot b b)) :=
    congrArg Vector3.y h
  have hZ : a.z * (1 / Real.sqrt (dot a a)) = b.z * (1 / Real.sqrt (dot b b)) :=
    congrArg Vector3.z h
  have h1 := scale_le_of_onCube a b _ _ ha hb hsa hsb hX hY hZ
  have h2 := scale_le_of_onCube b a _ _ hb ha hsb hsa hX.symm hY.symm hZ.symm
  have hs : 1 / Real.sqrt (dot a a) = 1 / Real.sqrt (dot b b) := le_antisymm h1 h2
  rw [hs] at hX hY hZ
  have ex := mul_right_cancel₀ hsb.ne' hX
  have ey := mul_right_cancel₀ hsb.ne' hY
  have ez := mul_right_cancel₀ hsb.ne' hZ
  cases a
  cases b
  simp only [Vector3.mk.injEq]
  exact ⟨ex, ey, ez⟩

theorem texelDirectionRaw_onCube (N f x y : Nat) (hN0 : 0 < N) (hf : f < 6) (hx : x < N)
    (hy : y < N) : OnCubeSurface (texelDirectionRaw f x y (1 / (N : ℝ))) := by
  have ux := texelCenter_gt N x hN0
  have ux1 := texelCenter_lt N x hx
  have uy := texelCenter_gt N y hN0
  have uy1 := texelCenter_lt N y hy
  have au : |texelCenter x (1 / (N : ℝ))| ≤ 1 := abs_le.mpr ⟨ux.le, ux1.le⟩
  have av : |texelCenter y (1 / (N : ℝ))| ≤ 1 := abs_le.mpr ⟨uy.le, uy1.le⟩
  unfold OnCubeSurface
  interval_cases f <;> simp [texelDirectionRaw, -one_div, au, av]

/-- Distinct valid texels of a cube of edge length `N` have distinct directions, and the
scalar product of their directions is below 1. -/
theorem texelDirection_dot_lt_one (N f x y f' x' y' : Nat) (hN0 : 0 < N) (hf : f < 6)
    (hx : x < N) (hy : y < N) (hf' : f' < 6) (hx' : x' < N) (hy' : y' < N)
    (hne : ¬ (f = f' ∧ x = x' ∧ y = y')) :
    texelDirection f x y (1 / (N : ℝ)) ≠ texelDirection f' x' y' (1 / (N : ℝ)) ∧
    dot (texelDirection f x y (1 / (N : ℝ))) (texelDirection f' x' y' (1 / (N : ℝ))) < 1 := by
  have hdir : texelDirection f x y (1 / (N : ℝ)) ≠ texelDirection f' x' y' (1 / (N : ℝ)) := by
    intro h
    exact hne (texelDirectionRaw_inj N f x y f' x' y' hN0 hf hx hy hf' hx' hy'
      (normalizeFast_inj_on_cube _ _ (texelDirectionRaw_onCube N f x y hN0 hf hx hy)
        (texelDirectionRaw_onCube N f' x' y' hN0 hf' hx' hy') h))
  refine ⟨hdir, ?_⟩
  by_contra hge
  push_neg at hge
  exact hdir (eq_of_unit_of_dot_ge_one _ _
    (dot_normalizeFast_self _ (texelDirectionRaw_dot_self_pos N f x y hf))
    (dot_normalizeFast_self _ (texelDirectionRaw_dot_self_pos N f' x' y' hf')) hge)

/-- C20: for `N > 0`, two valid texels `(f, x, y)` and `(f', x', y')` that differ have
different directions (with exact normalisation), and the scalar product of the two
directions is strictly below 1. -/
theorem texelDirection_injective (N f x y f' x' y' : Nat) (hN0 : 0 < N) (hf : f < 6)
    (hx : x < N) (hy : y < N) (hf' : f' < 6) (hx' : x' < N) (hy' : y' < N)
    (hne : ¬ (f = f' ∧ x = x' ∧ y = y')) :
    texelDirection f x y (1 / (N : ℝ)) ≠ texelDirection f' x' y' (1 / (N : ℝ)) ∧
    dot (texelDirection f x y (1 / (N : ℝ))) (texelDirection f' x' y' (1 / (N : ℝ))) < 1 :=
  texelDirection_dot_lt_one N f x y f' x' y' hN0 hf hx hy hf' hx' hy' hne

/-- The statement of C20 at edge length 2, texels `(0, 1, 1)` and `(4, 1, 0)`. -/
theorem texelDirection_injective_witness :
    0 < 2 ∧ 0 < 6 ∧ 1 < 2 ∧ 4 < 6 ∧ 0 < 2 ∧ ¬ (0 = 4 ∧ 1 = 1 ∧ 1 = 0) ∧
    texelDirection 0 1 1 (1 / ((2 : Nat) : ℝ)) ≠ texelDirection 4 1 0 (1 / ((2 : Nat) : ℝ)) ∧
    dot (texelDirection 0 1 1 (1 / ((2 : Nat) : ℝ)))
      (texelDirection 4 1 0 (1 / ((2 : Nat) : ℝ))) < 1 :=
  ⟨by decide, by decide, by decide, by decide, by decide, by decide,
    texelDirection_injective 2 0 1 1 4 1 0 (by decide) (by decide) (by decide) (by decide)
      (by decide) (by decide) (by decide) (by decide)⟩

/-! ## Texels behind the filter direction -/

theorem gatherTexel_error (cube : SourceCube) (t : SolidAngleTable) (v : VectorTable)
    (filterDir : Vector3) (p : ℝ) (ff xx yy : Nat) (e : Fault) :
    gatherTexel cube t v filterDir p ff xx yy (.error e) = .error e := rfl

end nvtt
